import Mathlib

/-!
Verification of the SWF shape decoder of `open-flash/swf-renderer` against its
natural-language specification.

The repository contains two implementations of the decoder:

* `swf-renderer.ts/src/lib/simple-shape/shape.ts` — the `SwfShapeConverter`
  class (`toSimpleShape`), modelled below in namespace `SimpleShape`;
* the Shumway-derived parser (`src/unnamed/part_005`, module
  `Shumway.SWF.Parser`) with `convertRecordsToShapeData`, `processStyle`,
  `applySegmentToStyles` and the `SegmentedPath` contour reconstructor,
  modelled below in namespace `Shum`.

JavaScript-specific behaviour is embedded explicitly:

* `x | 0` (ToInt32) is `toInt32`;
* JS `Map` is an association list whose keys are unique by construction;
* mutation of shared objects (the current `PathSegment`, `style.matrix = null`,
  `style.fillStyle = null`) is explicit state passing; where a claim depends on
  a mutation surviving a call (C9), the mutated value is returned;
* `release || assert(...)` and `Debug.warning(...)` are no-ops (release mode);
* exceptions (`throw`, `TypeError` on property access of `undefined`) are
  `Except.error`.
-/

/-- JS `n | 0`: coercion to a signed 32-bit integer (two's-complement wrap). -/
def toInt32 (n : Int) : Int := (n + 2 ^ 31) % 2 ^ 32 - 2 ^ 31

theorem toInt32_small {n : Int} (h1 : -2 ^ 31 ≤ n) (h2 : n < 2 ^ 31) : toInt32 n = n := by
  unfold toInt32
  omega

theorem toInt32_idem (n : Int) : toInt32 (toInt32 n) = toInt32 n := by
  unfold toInt32
  omega

/-- Replace the element at an index, leaving the list unchanged when out of
range (array element assignment). -/
def listModify {α : Type} (f : α → α) : Nat → List α → List α
  | _, [] => []
  | 0, a :: rest => f a :: rest
  | n + 1, a :: rest => a :: listModify f n rest

/-- Modify the last element of a list (`xs[xs.length - 1]` assignment). -/
def modifyLast {α : Type} (f : α → α) : List α → List α
  | [] => []
  | [a] => [f a]
  | a :: rest => a :: modifyLast f rest

namespace SimpleShape

/-! ## Model of `swf-renderer.ts/src/lib/simple-shape/shape.ts` -/

/-- A raw 8-bit-per-channel color (`StraightSRgba8` from `swf-tree`). -/
structure StraightSRgba8 where
  r : Nat
  g : Nat
  b : Nat
  a : Nat
deriving DecidableEq, Repr

/-- A normalized color, each channel in [0, 1] (`StraightSRgba<number>`). -/
structure NormColor where
  r : ℚ
  g : ℚ
  b : ℚ
  a : ℚ
deriving DecidableEq, Repr

/-- `normalizeStraightSRgba`: divide every channel by 255. -/
def normalizeStraightSRgba (color : StraightSRgba8) : NormColor :=
  ⟨(color.r : ℚ) / 255, (color.g : ℚ) / 255, (color.b : ℚ) / 255, (color.a : ℚ) / 255⟩

/-- The fill styles of the `swf-tree` input (`shapes.FillStyle`).  Only the
kind tag and the solid color are read by `shape.ts`; other payloads are
never accessed and are omitted. -/
inductive SwfFillStyle
  | solid (color : StraightSRgba8)
  | linearGradient
  | radialGradient
  | focalGradient
  | repeatingBitmap
  | clippedBitmap
  | nonSmoothedRepeatingBitmap
  | nonSmoothedClippedBitmap
deriving DecidableEq, Repr

/-- A `swf-tree` line style; `convertLineStyle` ignores all of its fields. -/
structure SwfLineStyle where
  width : Int
deriving DecidableEq, Repr

/-- Decoded fill style (`FillType.Solid` is the only supported kind). -/
inductive TsFillStyle
  | solid (color : NormColor)
deriving DecidableEq, Repr

/-- Decoded line style (`LineType.Solid`). -/
structure TsLineStyle where
  color : NormColor
  width : Int
deriving DecidableEq, Repr

/-- `convertFillStyle`: `Solid` is converted, every other declared kind hits
the `default` branch, `throw new Error("Unknown fill type")`. -/
def convertFillStyle : SwfFillStyle → Except String TsFillStyle
  | .solid color => .ok (.solid (normalizeStraightSRgba color))
  | _ => .error "Unknown fill type"

/-- `convertLineStyle`: a stub returning a fixed solid black line of width 50. -/
def convertLineStyle (_old : SwfLineStyle) : TsLineStyle :=
  ⟨⟨0, 0, 0, 1⟩, 50⟩

/-- The geometry produced by one `StraightEdge` / `CurvedEdge` record
(`StraightSegment` / `CurvedSegment`). -/
inductive Segment
  | straight (startX startY endX endY : Int)
  | curved (startX startY controlX controlY endX endY : Int)
deriving DecidableEq, Repr

def Segment.startX : Segment → Int
  | .straight sx _ _ _ => sx
  | .curved sx _ _ _ _ _ => sx

def Segment.startY : Segment → Int
  | .straight _ sy _ _ => sy
  | .curved _ sy _ _ _ _ => sy

def Segment.endX : Segment → Int
  | .straight _ _ ex _ => ex
  | .curved _ _ _ _ ex _ => ex

def Segment.endY : Segment → Int
  | .straight _ _ _ ey => ey
  | .curved _ _ _ _ _ ey => ey

/-- The segment with the same geometry traversed from its endpoint back to its
start (for curves the control point is kept). -/
def Segment.reverse : Segment → Segment
  | .straight sx sy ex ey => .straight ex ey sx sy
  | .curved sx sy cx cy ex ey => .curved ex ey cx cy sx sy

/-- `FillSegmentSet`: a fill style together with its segments in order of
definition. -/
structure FillSegmentSet where
  style : TsFillStyle
  segments : List Segment
deriving DecidableEq, Repr

/-- `LineSegmentSet`. -/
structure LineSegmentSet where
  style : TsLineStyle
  segments : List Segment
deriving DecidableEq, Repr

/-- `StyleLayer`: the fills and lines introduced by one definition of style
tables. -/
structure StyleLayer where
  fills : List FillSegmentSet
  lines : List LineSegmentSet
deriving DecidableEq, Repr

/-- The fill-conversion loop of `createStyleLayer` (throws at the first
unsupported style). -/
def convertFillStyles : List SwfFillStyle → Except String (List FillSegmentSet)
  | [] => .ok []
  | s :: rest =>
    match convertFillStyle s with
    | .error e => .error e
    | .ok style =>
      match convertFillStyles rest with
      | .error e => .error e
      | .ok sets => .ok ({ style := style, segments := [] } :: sets)

/-- `createStyleLayer`: convert the declared styles (the fill conversion can
throw) and pair each with an empty segment list. -/
def createStyleLayer (swfFillStyles : List SwfFillStyle) (swfLineStyles : List SwfLineStyle) :
    Except String StyleLayer :=
  match convertFillStyles swfFillStyles with
  | .error e => .error e
  | .ok fills =>
    .ok { fills := fills,
          lines := swfLineStyles.map fun s =>
            ({ style := convertLineStyle s, segments := [] } : LineSegmentSet) }

/-- The state of a `SwfShapeConverter`: the layer list, the three active
style-set references (modelled as indices into the last layer, which is the
only layer the references can point into), and the pen. -/
structure ConvState where
  layers : List StyleLayer
  leftFill : Option Nat
  rightFill : Option Nat
  lineFill : Option Nat
  x : Int
  y : Int
deriving DecidableEq, Repr

/-- Push a segment onto `this.leftFill.segments` / `this.rightFill.segments`
(the referenced `FillSegmentSet` lives in the last layer). -/
def pushFillSegment (st : ConvState) (i : Nat) (s : Segment) : ConvState :=
  let f := fun (l : StyleLayer) =>
    { l with fills := listModify (fun fs => { fs with segments := fs.segments ++ [s] }) i l.fills }
  { st with layers := modifyLast f st.layers }

/-- Push a segment onto `this.lineFill.segments`. -/
def pushLineSegment (st : ConvState) (i : Nat) (s : Segment) : ConvState :=
  let f := fun (l : StyleLayer) =>
    { l with lines := listModify (fun ls => { ls with segments := ls.segments ++ [s] }) i l.lines }
  { st with layers := modifyLast f st.layers }

/-- `setNewStyles`: push a fresh layer, clear all three references. -/
def setNewStyles (st : ConvState) (swfFillStyles : List SwfFillStyle)
    (swfLineStyles : List SwfLineStyle) : Except String ConvState :=
  match createStyleLayer swfFillStyles swfLineStyles with
  | .error e => .error e
  | .ok layer =>
    .ok { st with layers := st.layers ++ [layer],
                  leftFill := none, rightFill := none, lineFill := none }

/-- The `SwfShapeConverter` constructor. -/
def mkConverter (swfFillStyles : List SwfFillStyle) (swfLineStyles : List SwfLineStyle) :
    Except String ConvState :=
  setNewStyles ⟨[], none, none, none, 0, 0⟩ swfFillStyles swfLineStyles

/-- `setLeftFillById`: id 0 clears the reference; otherwise the id minus one
indexes the current layer's fills, and a missing entry throws. -/
def setLeftFillById (st : ConvState) (fillId : Nat) : Except String ConvState :=
  if fillId = 0 then .ok { st with leftFill := none }
  else
    match st.layers.getLast? with
    | none => .error "TypeError: no current layer"
    | some layer =>
      match layer.fills.get? (fillId - 1) with
      | none => .error "Invalid fill ID"
      | some _ => .ok { st with leftFill := some (fillId - 1) }

/-- `setRightFillById`. -/
def setRightFillById (st : ConvState) (fillId : Nat) : Except String ConvState :=
  if fillId = 0 then .ok { st with rightFill := none }
  else
    match st.layers.getLast? with
    | none => .error "TypeError: no current layer"
    | some layer =>
      match layer.fills.get? (fillId - 1) with
      | none => .error "Invalid fill ID"
      | some _ => .ok { st with rightFill := some (fillId - 1) }

/-- A `shapes.records.StyleChange` record as read by `applyStyleChange`:
optional left/right fill ids and the move fields (`deltaX`/`deltaY`). -/
structure StyleChangeRecord where
  leftFill : Option Nat
  rightFill : Option Nat
  deltaX : Int
  deltaY : Int
deriving DecidableEq, Repr

/-- `applyStyleChange`: update the fill references the record specifies, then
set the pen to the record's (absolute) move coordinates — but only when
`record.deltaX !== 0 || record.deltaY !== 0`. -/
def applyStyleChange (st : ConvState) (record : StyleChangeRecord) : Except String ConvState :=
  match (match record.leftFill with
         | some id => setLeftFillById st id
         | none => .ok st) with
  | .error e => .error e
  | .ok st =>
    match (match record.rightFill with
           | some id => setRightFillById st id
           | none => .ok st) with
    | .error e => .error e
    | .ok st =>
      if record.deltaX ≠ 0 ∨ record.deltaY ≠ 0 then
        .ok { st with x := record.deltaX, y := record.deltaY }
      else
        .ok st

/-- A `shapes.records.StraightEdge` record. -/
structure StraightEdgeRecord where
  deltaX : Int
  deltaY : Int
deriving DecidableEq, Repr

/-- A `shapes.records.CurvedEdge` record (fields as read by `applyCurvedEdge`). -/
structure CurvedEdgeRecord where
  controlX : Int
  controlY : Int
  deltaX : Int
  deltaY : Int
deriving DecidableEq, Repr

/-- `applyStraightEdge`: push a forward copy to the left fill, a reversed copy
to the right fill, a forward copy to the line fill, then move the pen. -/
def applyStraightEdge (st : ConvState) (record : StraightEdgeRecord) : ConvState :=
  let endX := st.x + record.deltaX
  let endY := st.y + record.deltaY
  let st1 := match st.leftFill with
    | some i => pushFillSegment st i (.straight st.x st.y endX endY)
    | none => st
  let st2 := match st1.rightFill with
    | some i => pushFillSegment st1 i (.straight endX endY st1.x st1.y)
    | none => st1
  let st3 := match st2.lineFill with
    | some i => pushLineSegment st2 i (.straight st2.x st2.y endX endY)
    | none => st2
  { st3 with x := endX, y := endY }

/-- `applyCurvedEdge`. -/
def applyCurvedEdge (st : ConvState) (record : CurvedEdgeRecord) : ConvState :=
  let controlX := st.x + record.controlX
  let controlY := st.y + record.controlY
  let endX := st.x + record.deltaX
  let endY := st.y + record.deltaY
  let st1 := match st.leftFill with
    | some i => pushFillSegment st i (.curved st.x st.y controlX controlY endX endY)
    | none => st
  let st2 := match st1.rightFill with
    | some i => pushFillSegment st1 i (.curved endX endY controlX controlY st1.x st1.y)
    | none => st1
  let st3 := match st2.lineFill with
    | some i => pushLineSegment st2 i (.curved st2.x st2.y controlX controlY endX endY)
    | none => st2
  { st3 with x := endX, y := endY }

/-- Path commands (`Command`). -/
inductive Command
  | moveTo (x y : Int)
  | lineTo (endX endY : Int)
  | curveTo (controlX controlY endX endY : Int)
deriving DecidableEq, Repr

/-- `PathWithStyle` (exactly one of `fill` / `line` is set). -/
structure PathWithStyle where
  commands : List Command
  fill : Option TsFillStyle
  line : Option TsLineStyle
deriving DecidableEq, Repr

/-- `Shape`. -/
structure Shape where
  paths : List PathWithStyle
deriving DecidableEq, Repr

/-- The single scan of `extractContinuous`'s inner loop: matched segments are
spliced out of the open set and pushed (end-match) or unshifted (start-match)
onto the result; everything else is kept.  Returns the unshifted part (most
recent first), the pushed part (in order) and the kept remainder. -/
def extractScan : List Segment → Int → Int → Int → Int →
    List Segment → List Segment → List Segment →
    List Segment × List Segment × List Segment
  | [], _, _, _, _, front, back, kept => (front, back, kept)
  | cur :: rest, sx, sy, ex, ey, front, back, kept =>
    if cur.startX = ex ∧ cur.startY = ey then
      extractScan rest sx sy cur.endX cur.endY front (back ++ [cur]) kept
    else if cur.endX = sx ∧ cur.endY = sy then
      extractScan rest cur.startX cur.startY ex ey (cur :: front) back kept
    else
      extractScan rest sx sy ex ey front back (kept ++ [cur])

/-- `extractContinuous`: shift the first segment, then run a single scan over
the remaining open set.  Returns the extracted continuous run and the new open
set. -/
def extractContinuous : List Segment → Except String (List Segment × List Segment)
  | [] => .error "FailedAssertion: openSet should not be empty"
  | first :: rest =>
    let (front, back, kept) :=
      extractScan rest first.startX first.startY first.endX first.endY [] [] []
    .ok (front ++ first :: back, kept)

theorem extractScan_kept_length : ∀ (l : List Segment) (sx sy ex ey : Int)
    (front back kept : List Segment),
    (extractScan l sx sy ex ey front back kept).2.2.length ≤ kept.length + l.length := by
  intro l
  induction l with
  | nil => intro sx sy ex ey front back kept; simp [extractScan]
  | cons cur rest ih =>
    intro sx sy ex ey front back kept
    unfold extractScan
    split
    · have h := ih sx sy cur.endX cur.endY front (back ++ [cur]) kept
      simp only [List.length_cons]
      omega
    · split
      · have h := ih cur.startX cur.startY ex ey (cur :: front) back kept
        simp only [List.length_cons]
        omega
      · have h := ih sx sy ex ey front back (kept ++ [cur])
        simp only [List.length_cons, List.length_append, List.length_nil] at h ⊢
        omega

/-- One extracted sequence rendered as commands: a `MoveTo` to the start of the
first segment, then one `LineTo`/`CurveTo` per segment. -/
def Segment.toCommand : Segment → Command
  | .straight _ _ ex ey => .lineTo ex ey
  | .curved _ _ cx cy ex ey => .curveTo cx cy ex ey

def seqCommands : List Segment → List Command
  | [] => []
  | s :: rest => .moveTo s.startX s.startY :: (s :: rest).map Segment.toCommand

/-- The `while (openSet.length > 0)` loop of `segmentsToCommands`. -/
def segmentsToCommandsLoop : List Segment → List Command → Except String (List Command)
  | [], acc => .ok acc
  | first :: rest, acc =>
    let r := extractScan rest first.startX first.startY first.endX first.endY [] [] []
    segmentsToCommandsLoop r.2.2 (acc ++ seqCommands (r.1 ++ first :: r.2.1))
termination_by l _ => l.length
decreasing_by
  have h := extractScan_kept_length rest first.startX first.startY first.endX first.endY [] [] []
  simp only [List.length_nil, List.length_cons, Nat.zero_add] at h ⊢
  omega

/-- `segmentsToCommands`. -/
def segmentsToCommands (segments : List Segment) : Except String (List Command) :=
  segmentsToCommandsLoop segments []

/-- The fill loop of `layerToPaths`: one path per fill set with a nonempty
command list, in fill-index order. -/
def fillSetsToPaths : List FillSegmentSet → Except String (List PathWithStyle)
  | [] => .ok []
  | fs :: rest =>
    match segmentsToCommands fs.segments with
    | .error e => .error e
    | .ok commands =>
      match fillSetsToPaths rest with
      | .error e => .error e
      | .ok paths =>
        .ok ((if commands.length > 0
              then [{ commands := commands, fill := some fs.style, line := none }]
              else []) ++ paths)

/-- The line loop of `layerToPaths`. -/
def lineSetsToPaths : List LineSegmentSet → Except String (List PathWithStyle)
  | [] => .ok []
  | ls :: rest =>
    match segmentsToCommands ls.segments with
    | .error e => .error e
    | .ok commands =>
      match lineSetsToPaths rest with
      | .error e => .error e
      | .ok paths =>
        .ok ((if commands.length > 0
              then [{ commands := commands, fill := none, line := some ls.style }]
              else []) ++ paths)

/-- `layerToPaths`: fill paths first (in fill-index order), then line paths;
a set whose command list is empty contributes no path. -/
def layerToPaths (layer : StyleLayer) : Except String (List PathWithStyle) :=
  match fillSetsToPaths layer.fills with
  | .error e => .error e
  | .ok fillPaths =>
    match lineSetsToPaths layer.lines with
    | .error e => .error e
    | .ok linePaths => .ok (fillPaths ++ linePaths)

/-- The layer loop of `getShape`. -/
def layersToPaths : List StyleLayer → Except String (List PathWithStyle)
  | [] => .ok []
  | layer :: rest =>
    match layerToPaths layer with
    | .error e => .error e
    | .ok paths =>
      match layersToPaths rest with
      | .error e => .error e
      | .ok more => .ok (paths ++ more)

/-- `getShape`. -/
def getShape (st : ConvState) : Except String Shape :=
  match layersToPaths st.layers with
  | .error e => .error e
  | .ok paths => .ok { paths := paths }

/-- The three record kinds dispatched by `toSimpleShape`. -/
inductive SwfShapeRecord
  | curvedEdge (r : CurvedEdgeRecord)
  | straightEdge (r : StraightEdgeRecord)
  | styleChange (r : StyleChangeRecord)
deriving DecidableEq, Repr

/-- A `DefineShape` tag, restricted to the fields `toSimpleShape` reads. -/
structure DefineShapeTag where
  fillStyles : List SwfFillStyle
  lineStyles : List SwfLineStyle
  records : List SwfShapeRecord
deriving DecidableEq, Repr

/-- The record loop of `toSimpleShape`. -/
def runRecordsTs (st : ConvState) : List SwfShapeRecord → Except String ConvState
  | [] => .ok st
  | .curvedEdge r :: rest => runRecordsTs (applyCurvedEdge st r) rest
  | .straightEdge r :: rest => runRecordsTs (applyStraightEdge st r) rest
  | .styleChange r :: rest =>
    match applyStyleChange st r with
    | .error e => .error e
    | .ok st2 => runRecordsTs st2 rest

/-- `toSimpleShape`: build the converter, apply each record, extract the shape. -/
def toSimpleShape (tag : DefineShapeTag) : Except String Shape :=
  match mkConverter tag.fillStyles tag.lineStyles with
  | .error e => .error e
  | .ok conv =>
    match runRecordsTs conv tag.records with
    | .error e => .error e
    | .ok conv2 => getShape conv2

end SimpleShape

namespace Shum

/-! ## Model of the Shumway-derived parser (`src/unnamed/part_005`)

Non-morph decoding (`isMorph = false`); the morph edge pairing of
`convertRecordsToShapeData` is modelled separately as `morphEdgeStep`. -/

/-- A JS `color` value as it appears in this module: either a packed-number
color produced by the tag parser, or an object literal (the default path's
`{red: 0, green: 0, blue: 0, alpha: 0}`).  An object is always truthy; the
number 0 is falsy. -/
inductive ColorV
  | packed (value : Int)
  | rgba (red green blue alpha : Int)
deriving DecidableEq, Repr

/-- JS falsiness of `style.color` (`!style.color`): absent or the number 0. -/
def colorFalsy : Option ColorV → Bool
  | none => true
  | some (.packed v) => v == 0
  | some (.rgba _ _ _ _) => false

/-- `ShapeMatrix` input (`{a, b, c, d, tx, ty}`). -/
structure ShapeMatrix where
  a : ℚ
  b : ℚ
  c : ℚ
  d : ℚ
  tx : ℚ
  ty : ℚ
deriving DecidableEq, Repr

/-- A JS number that may be `NaN` (`matrix.a * scale` with `scale` left
`undefined` by the invalid-fill branch of `processStyle`). -/
inductive TNum
  | nan
  | val (q : ℚ)
deriving DecidableEq, Repr

/-- The transform stored on a processed style. -/
structure TransformM where
  a : TNum
  b : TNum
  c : TNum
  d : TNum
  tx : ℚ
  ty : ℚ
deriving DecidableEq, Repr

/-- `IDENTITY_MATRIX`. -/
def identityTransform : TransformM := ⟨.val 1, .val 0, .val 0, .val 1, 0, 0⟩

/-- `matrix.component * scale` where `scale` may be `undefined` (gives `NaN`). -/
def scaleMul : Option ℚ → ℚ → TNum
  | none, _ => .nan
  | some s, q => .val (q * s)

/-- A gradient record `{color, ratio}` (field `ratioV` models `ratio`). -/
structure GradientRecord where
  color : Int
  ratioV : Int
deriving DecidableEq, Repr

/-- A raw fill-style object as handed to `processStyle` with
`isLineStyle = false`: the fields the function reads. -/
structure RawFillStyle where
  type : Option Nat
  color : Option ColorV
  records : List GradientRecord
  matrix : Option ShapeMatrix
  bitmapId : Int
  focalPoint : Option ℚ
  spreadMethod : Option Nat
  interpolationMode : Option Nat
deriving DecidableEq, Repr

/-- A raw line-style object (fields read by `processStyle` with
`isLineStyle = true` and by `writeLineStyle`). -/
structure RawLineStyle where
  width : Int
  color : Option ColorV
  hasFill : Bool
  fillStyle : Option RawFillStyle
  miterLimitFactor : Option ℚ
  pixelHinting : Bool
  noHscale : Bool
  noVscale : Bool
  endCapsStyle : Option Nat
  jointStyle : Option Nat
deriving DecidableEq, Repr

/-- The processed `ShapeStyle` (the JS code augments the raw object in place;
`colorList`/`ratioList` model `colors`/`ratios`). -/
structure ShapeStyle where
  type : Option Nat
  width : Option Int
  color : Option ColorV
  miterLimit : Option ℚ
  pixelHinting : Bool
  noHscale : Bool
  noVscale : Bool
  endCapsStyle : Option Nat
  jointStyle : Option Nat
  colorList : List Int
  ratioList : List Int
  transform : Option TransformM
  focalPoint : Option ℚ
  spreadMethod : Option Nat
  interpolationMode : Option Nat
  bitmapId : Option Int
  bitmapIndex : Option Nat
  repeatFlag : Option Bool
  smoothFlag : Option Bool
deriving DecidableEq, Repr, Inhabited

/-- The fields of a raw fill style seen through the `ShapeStyle` view
(`shapeStyle = style` aliases the same object). -/
def fillBase (s : RawFillStyle) : ShapeStyle :=
  { type := s.type, width := none, color := s.color, miterLimit := none,
    pixelHinting := false, noHscale := false, noVscale := false,
    endCapsStyle := none, jointStyle := none,
    colorList := [], ratioList := [], transform := none,
    focalPoint := s.focalPoint, spreadMethod := s.spreadMethod,
    interpolationMode := s.interpolationMode,
    bitmapId := some s.bitmapId, bitmapIndex := none,
    repeatFlag := none, smoothFlag := none }

def isGradientType (t : Nat) : Bool := t == 0x10 || t == 0x12 || t == 0x13

def isBitmapType (t : Nat) : Bool := t == 0x40 || t == 0x41 || t == 0x42 || t == 0x43

/-- The bitmap-index lookup in the dependency list: reuse an existing index or
append the bitmap id (`dependencies.indexOf` / `push`). -/
def bitmapDeps (bitmapId : Int) (deps : List Int) : Nat × List Int :=
  if bitmapId ∈ deps then (deps.indexOf bitmapId, deps)
  else (deps.length, deps ++ [bitmapId])

/-- The style fields set before the matrix handling of `processStyle`
(gradient stop tables, bitmap flags and index). -/
def fillCase (style : RawFillStyle) (t : Nat) (deps : List Int) : ShapeStyle :=
  if isGradientType t then
    { fillBase style with colorList := style.records.map (fun r => r.color),
                          ratioList := style.records.map (fun r => r.ratioV) }
  else if isBitmapType t then
    { fillBase style with smoothFlag := some (decide (t ≠ 0x42 ∧ t ≠ 0x43)),
                          repeatFlag := some (decide (t ≠ 0x41 ∧ t ≠ 0x43)),
                          bitmapIndex := some (bitmapDeps style.bitmapId deps).1 }
  else
    fillBase style

/-- The dependency list after the style (only bitmap fills mutate it). -/
def fillCaseDeps (style : RawFillStyle) (t : Nat) (deps : List Int) : List Int :=
  if isGradientType t then deps
  else if isBitmapType t then (bitmapDeps style.bitmapId deps).2
  else deps

/-- The matrix scale factor: 819.2 for gradients, 0.05 for bitmaps, and
`undefined` for an invalid kind (the `default:` branch only calls
`Debug.warning` and leaves `scale` unset). -/
def fillScale (t : Nat) : Option ℚ :=
  if isGradientType t then some ((4096 : ℚ) / 5)
  else if isBitmapType t then some ((1 : ℚ) / 20)
  else none

/-- `processStyle` for fill styles (`isLineStyle = false`, non-morph).
Returns the processed style, the raw style after the in-place mutation
(`style.matrix = null` when a matrix was consumed), and the updated
dependency list. -/
def processFillStyle (style : RawFillStyle) (deps : List Int) :
    ShapeStyle × RawFillStyle × List Int :=
  if style.type = none ∨ style.type = some 0 then
    (fillBase style, style, deps)
  else
    let t := (style.type).getD 0
    let base := fillCase style t deps
    let deps1 := fillCaseDeps style t deps
    match style.matrix with
    | none => ({ base with transform := some identityTransform }, style, deps1)
    | some m =>
      ({ base with transform := some ⟨scaleMul (fillScale t) m.a, scaleMul (fillScale t) m.b,
                                     scaleMul (fillScale t) m.c, scaleMul (fillScale t) m.d,
                                     m.tx / 20, m.ty / 20⟩ },
       { style with matrix := none },
       deps1)

/-- `processStyle` for line styles (`isLineStyle = true`, non-morph):
`miterLimit = (style.miterLimitFactor || 1.5) * 2`; when the color is falsy
and `hasFill` is set, the nested fill style is processed and its fields are
copied over, and `style.fillStyle` is nulled (a missing nested fill is the JS
`TypeError` of reading a property of `null`). -/
def processLineStyle (style : RawLineStyle) (deps : List Int) :
    Except String (ShapeStyle × RawLineStyle × List Int) :=
  let miterLimit : ℚ :=
    (match style.miterLimitFactor with
     | none => 3 / 2
     | some f => if f = 0 then 3 / 2 else f) * 2
  let base : ShapeStyle :=
    { type := none, width := some style.width, color := style.color,
      miterLimit := some miterLimit,
      pixelHinting := style.pixelHinting, noHscale := style.noHscale,
      noVscale := style.noVscale,
      endCapsStyle := style.endCapsStyle, jointStyle := style.jointStyle,
      colorList := [], ratioList := [], transform := none, focalPoint := none,
      spreadMethod := none, interpolationMode := none,
      bitmapId := none, bitmapIndex := none,
      repeatFlag := none, smoothFlag := none }
  if colorFalsy style.color ∧ style.hasFill then
    match style.fillStyle with
    | none => .error "TypeError: cannot read property of null fillStyle"
    | some fs =>
      let (fillOut, _, deps') := processFillStyle fs deps
      .ok ({ base with type := fillOut.type, transform := fillOut.transform,
                       colorList := fillOut.colorList, ratioList := fillOut.ratioList,
                       focalPoint := fillOut.focalPoint,
                       bitmapId := fillOut.bitmapId, bitmapIndex := fillOut.bitmapIndex,
                       repeatFlag := fillOut.repeatFlag },
            { style with fillStyle := none }, deps')
  else
    .ok ({ base with type := some 0 }, style, deps)

/-- The commands recorded in a `PathSegment` (shared-buffer writes; coordinate
writes into the `Int32Array` wrap to 32 bits at the call sites). -/
inductive SegCmd
  | moveTo (x y : Int)
  | lineTo (x y : Int)
  | curveTo (cpx cpy x y : Int)
deriving DecidableEq, Repr

/-- A `PathSegment` as stored in a bucket: its command list and the
`isReversed` flag. -/
structure PSeg where
  cmds : List SegCmd
  isReversed : Bool
deriving DecidableEq, Repr

/-- A `SegmentedPath`: one of `fillStyle`/`lineStyle` set, plus the segment
list. -/
structure SegPath where
  fillStyle : Option ShapeStyle
  lineStyle : Option ShapeStyle
  segs : List PSeg
deriving DecidableEq, Repr

/-- `createPathsList` for fill styles, also returning the mutated raw styles. -/
def createFillPathsList (styles : List RawFillStyle) (deps : List Int) :
    List SegPath × List RawFillStyle × List Int :=
  match styles with
  | [] => ([], [], deps)
  | s :: rest =>
    let r1 := processFillStyle s deps
    let r2 := createFillPathsList rest r1.2.2
    (⟨some r1.1, none, []⟩ :: r2.1, r1.2.1 :: r2.2.1, r2.2.2)

/-- `createPathsList` for line styles. -/
def createLinePathsList (styles : List RawLineStyle) (deps : List Int) :
    Except String (List SegPath × List RawLineStyle × List Int) :=
  match styles with
  | [] => .ok ([], [], deps)
  | s :: rest =>
    match processLineStyle s deps with
    | .error e => .error e
    | .ok (out, s', deps1) =>
      match createLinePathsList rest deps1 with
      | .error e => .error e
      | .ok (paths, rest', deps2) =>
        .ok ((⟨none, some out, []⟩ : SegPath) :: paths, s' :: rest', deps2)

/-- The state of `convertRecordsToShapeData`'s record loop.  Buckets are
identified by their index in `buckets` (object identity); `fillIds`/`lineIds`
are the current `fillPaths`/`linePaths` arrays, `allIds` is `allPaths`
(`none` = JS `null`), `primary` is the long-lived local variable `path`, and
`cur` locates the current `PathSegment` inside its bucket (the segment object
is mutated in place while it is current). -/
structure EmitState where
  buckets : List SegPath
  fillIds : List Nat
  lineIds : List Nat
  allIds : Option (List Nat)
  defaultId : Option Nat
  fill0 : Nat
  fill1 : Nat
  line : Nat
  primary : Option Nat
  cur : Option (Nat × Nat)
  x : Int
  y : Int
  deps : List Int
deriving DecidableEq, Repr

def modifyBucket (f : SegPath → SegPath) (id : Nat) (st : EmitState) : EmitState :=
  { st with buckets := listModify f id st.buckets }

/-- `path.addSegment(segment)`. -/
def addSegmentTo (st : EmitState) (id : Nat) (s : PSeg) : EmitState :=
  modifyBucket (fun b => { b with segs := b.segs ++ [s] }) id st

/-- Append a drawing command to the current segment (mutation of the
`PathSegment` object referenced by both the bucket and the `segment`
variable). -/
def appendToCur (st : EmitState) (c : SegCmd) : EmitState :=
  match st.cur with
  | none => st
  | some (bid, sidx) =>
    modifyBucket
      (fun b => { b with segs := listModify (fun sg => { sg with cmds := sg.cmds ++ [c] }) sidx b.segs })
      bid st

/-- The current value of the `segment` variable (a snapshot of the object). -/
def curSnapshot (st : EmitState) : Option PSeg :=
  match st.cur with
  | none => none
  | some (bid, sidx) => (st.buckets.get? bid).bind fun b => b.segs.get? sidx

/-- `segment.isReversed = true` (mutates the object inside its bucket). -/
def markCurReversed (st : EmitState) : EmitState :=
  match st.cur with
  | none => st
  | some (bid, sidx) =>
    modifyBucket
      (fun b => { b with segs := listModify (fun sg => { sg with isReversed := true }) sidx b.segs })
      bid st

/-- `applySegmentToStyles(segment, styles, linePaths, fillPaths)`:
the segment was already recorded into its primary path when it was created;
this call marks it reversed (fill0 the only style), or adds a reversed clone
to `fillPaths[fill0 - 1]` and a clone to `linePaths[line - 1]`. -/
def applySegmentToStyles (st : EmitState) : Except String EmitState :=
  match curSnapshot st with
  | none => .ok st
  | some seg =>
    if st.fill0 ≠ 0 ∧ st.fill1 = 0 ∧ st.line = 0 then
      .ok (markCurReversed st)
    else
      match (if st.fill0 ≠ 0 then
               match st.fillIds.get? (st.fill0 - 1) with
               | some id => .ok (addSegmentTo st id { seg with isReversed := true })
               | none => .error "TypeError: fillPaths[styles.fill0 - 1] is undefined"
             else .ok st : Except String EmitState) with
      | .error e => .error e
      | .ok st2 =>
        if st2.line ≠ 0 ∧ st2.fill1 ≠ 0 then
          match st2.lineIds.get? (st2.line - 1) with
          | some id => .ok (addSegmentTo st2 id seg)
          | none => .error "TypeError: linePaths[styles.line - 1] is undefined"
        else .ok st2

/-- `PathSegment.FromDefaults` + `path.addSegment(segment)` +
`segment.moveTo(x, y)` (the `Int32Array` write wraps the coordinates). -/
def startSegmentAt (st : EmitState) (bid : Nat) : EmitState :=
  let idx := match st.buckets.get? bid with
    | some b => b.segs.length
    | none => 0
  let st := addSegmentTo st bid ⟨[.moveTo (toInt32 st.x) (toInt32 st.y)], false⟩
  { st with cur := some (bid, idx) }

/-- The literal default-path style
`{color: {red: 0, green: 0, blue: 0, alpha: 0}, width: 20}`. -/
def defaultRawLineStyle : RawLineStyle :=
  { width := 20, color := some (.rgba 0 0 0 0), hasFill := false, fillStyle := none,
    miterLimitFactor := none, pixelHinting := false, noHscale := false,
    noVscale := false, endCapsStyle := none, jointStyle := none }

/-- `processStyle(style, true, isMorph, dependencies)` applied to the default
path style (its color is an object, hence truthy, so this never throws). -/
def defaultPathStyle (deps : List Int) : ShapeStyle :=
  match processLineStyle defaultRawLineStyle deps with
  | .ok (out, _, _) => out
  | .error _ => default

/-- Lines 188–201 of `convertRecordsToShapeData`: when an edge record arrives
with no current segment, lazily create the default path and start a segment
on it. -/
def ensureSegment (st : EmitState) : EmitState :=
  match st.cur with
  | some _ => st
  | none =>
    let (st1, did) :=
      match st.defaultId with
      | some d => (st, d)
      | none =>
        let bucket : SegPath := ⟨none, some (defaultPathStyle st.deps), []⟩
        ({ st with buckets := st.buckets ++ [bucket], defaultId := some st.buckets.length },
         st.buckets.length)
    startSegmentAt st1 did

/-- A non-morph `StraightEdge` record: `x += deltaX | 0; y += deltaY | 0;
segment.lineTo(x, y)`. -/
def stepStraightEdge (st : EmitState) (deltaX deltaY : Int) : EmitState :=
  let st := ensureSegment st
  let x := st.x + toInt32 deltaX
  let y := st.y + toInt32 deltaY
  let st := appendToCur st (.lineTo (toInt32 x) (toInt32 y))
  { st with x := x, y := y }

/-- A non-morph `CurvedEdge` record: control and anchor points are computed
with `| 0` on each sum, then `segment.curveTo(cx, cy, x, y)`. -/
def stepCurvedEdge (st : EmitState)
    (controlDeltaX controlDeltaY anchorDeltaX anchorDeltaY : Int) : EmitState :=
  let st := ensureSegment st
  let cx := toInt32 (st.x + controlDeltaX)
  let cy := toInt32 (st.y + controlDeltaY)
  let x := toInt32 (cx + anchorDeltaX)
  let y := toInt32 (cy + anchorDeltaY)
  let st := appendToCur st (.curveTo cx cy x y)
  { st with x := x, y := y }

/-- A StyleChange record (type 0), with the flag bits expanded. -/
structure StyleChangeRec where
  hasNewStyles : Bool
  fillStyles : List RawFillStyle
  lineStyles : List RawLineStyle
  hasFillStyle0 : Bool
  fillStyle0 : Nat
  hasFillStyle1 : Bool
  fillStyle1 : Nat
  hasLineStyle : Bool
  lineStyle : Nat
  hasMove : Bool
  moveX : Int
  moveY : Int
deriving DecidableEq, Repr

/-- The shape records of a (non-morph) tag. -/
inductive ShapeRec
  | styleChange (r : StyleChangeRec)
  | straightEdge (deltaX deltaY : Int)
  | curvedEdge (controlDeltaX controlDeltaY anchorDeltaX anchorDeltaY : Int)
deriving DecidableEq, Repr

/-- The `HasNewStyles` block of the style-change handling: close the current
layer (fills, then lines, then a pending default path) into `allPaths`,
create fresh buckets from the record's style tables, reset the three styles. -/
def applyNewStyles (st : EmitState) (r : StyleChangeRec) :
    Except String (EmitState × StyleChangeRec) :=
  let all1 := st.allIds.getD [] ++ st.fillIds
  let resF := createFillPathsList r.fillStyles st.deps
  let st1 : EmitState :=
    { st with buckets := st.buckets ++ resF.1,
              fillIds := List.range' st.buckets.length resF.1.length,
              deps := resF.2.2 }
  let all2 := all1 ++ st1.lineIds
  match createLinePathsList r.lineStyles st1.deps with
  | .error e => .error e
  | .ok (newLineBuckets, lineStyles', depsB) =>
    let st2 : EmitState :=
      { st1 with buckets := st1.buckets ++ newLineBuckets,
                 lineIds := List.range' st1.buckets.length newLineBuckets.length,
                 deps := depsB }
    let all3 := all2 ++ (match st2.defaultId with | some d => [d] | none => [])
    .ok ({ st2 with defaultId := none, allIds := some all3,
                    fill0 := 0, fill1 := 0, line := 0 },
         { r with fillStyles := resF.2.1, lineStyles := lineStyles' })

/-- The part of a type-0 record after the segment flush and the optional
`HasNewStyles` block: update the styles the record carries, re-select `path`,
apply the (absolute) move, and start a new segment if `path` is set. -/
def stepStyleChangeTail (st : EmitState) (r : StyleChangeRec) : EmitState :=
  let st := if r.hasFillStyle0 then { st with fill0 := r.fillStyle0 } else st
  let st := if r.hasFillStyle1 then { st with fill1 := r.fillStyle1 } else st
  let st := if r.hasLineStyle then { st with line := r.lineStyle } else st
  let primaryNew :=
    if st.fill1 ≠ 0 then st.fillIds.get? (st.fill1 - 1)
    else if st.line ≠ 0 then st.lineIds.get? (st.line - 1)
    else if st.fill0 ≠ 0 then st.fillIds.get? (st.fill0 - 1)
    else st.primary
  let st := { st with primary := primaryNew }
  let st := if r.hasMove then { st with x := toInt32 r.moveX, y := toInt32 r.moveY } else st
  match st.primary with
  | some bid => startSegmentAt st bid
  | none => st

def stepStyleChange (st : EmitState) (r : StyleChangeRec) :
    Except String (EmitState × StyleChangeRec) :=
  match applySegmentToStyles st with
  | .error e => .error e
  | .ok st1 =>
    match (if r.hasNewStyles then applyNewStyles st1 r
           else .ok (st1, r) : Except String (EmitState × StyleChangeRec)) with
    | .error e => .error e
    | .ok (st2, r') => .ok (stepStyleChangeTail st2 r, r')

/-- The record loop of `convertRecordsToShapeData`; returns the final state
and the records after in-place style mutation. -/
def runRecords : EmitState → List ShapeRec → Except String (EmitState × List ShapeRec)
  | st, [] => .ok (st, [])
  | st, .styleChange r :: rest =>
    match stepStyleChange st r with
    | .error e => .error e
    | .ok (st1, r') =>
      match runRecords st1 rest with
      | .error e => .error e
      | .ok (st2, rest') => .ok (st2, .styleChange r' :: rest')
  | st, .straightEdge dx dy :: rest =>
    match runRecords (stepStraightEdge st dx dy) rest with
    | .error e => .error e
    | .ok (st2, rest') => .ok (st2, .straightEdge dx dy :: rest')
  | st, .curvedEdge a b c d :: rest =>
    match runRecords (stepCurvedEdge st a b c d) rest with
    | .error e => .error e
    | .ok (st2, rest') => .ok (st2, .curvedEdge a b c d :: rest')

/-- A `DefineShape`-family tag restricted to what `defineShape` reads
(non-morph). -/
structure ShapeTag where
  fillStyles : List RawFillStyle
  lineStyles : List RawLineStyle
  records : List ShapeRec
deriving DecidableEq, Repr

/-- `defineShape` setup: fresh dependency list, `createPathsList` for the
tag's top-level styles. -/
def initState (tag : ShapeTag) : Except String (EmitState × ShapeTag) :=
  let resF := createFillPathsList tag.fillStyles []
  match createLinePathsList tag.lineStyles resF.2.2 with
  | .error e => .error e
  | .ok (lineBuckets, lineStyles', deps2) =>
    .ok ({ buckets := resF.1 ++ lineBuckets,
           fillIds := List.range resF.1.length,
           lineIds := List.range' resF.1.length lineBuckets.length,
           allIds := none, defaultId := none,
           fill0 := 0, fill1 := 0, line := 0,
           primary := none, cur := none, x := 0, y := 0, deps := deps2 },
         { tag with fillStyles := resF.2.1, lineStyles := lineStyles' })

/-- Lines 267–277: the bucket order in which `allPaths` is serialized —
closed layers first, then the current fill paths, the current line paths,
and a still-pending default path last. -/
def finalOrder (st : EmitState) : List Nat :=
  st.allIds.getD [] ++ st.fillIds ++ st.lineIds ++
    (match st.defaultId with | some d => [d] | none => [])

end Shum

namespace Shum

/-! ### `SegmentedPath` serialization (the contour reconstructor) -/

/-- The unsigned-32-bit view of a stored coordinate (the shared data buffer
is written through an `Int32Array` and read back as a `Uint32Array`). -/
def u32 (n : Int) : Nat := (n % 2 ^ 32).toNat

/-- `storeStartAndEnd`'s packed point key
`data[pos] + data[pos + 1] * (1 << 24)`, computed exactly.  (The JS float64
sum rounds above 2^53, which can only merge further keys; no claim below
depends on particular key values.) -/
def pointKey (p : Int × Int) : Nat := u32 p.1 + u32 p.2 * 2 ^ 24

/-- The first data pair of a segment (`data[this.dataStart >> 2]` and the
following word); for the (unreachable) empty segment, `(0, 0)`. -/
def firstPair : List SegCmd → Int × Int
  | [] => (0, 0)
  | .moveTo x y :: _ => (x, y)
  | .lineTo x y :: _ => (x, y)
  | .curveTo cpx cpy _ _ :: _ => (cpx, cpy)

/-- The final data pair written by a command (its endpoint). -/
def SegCmd.endPair : SegCmd → Int × Int
  | .moveTo x y => (x, y)
  | .lineTo x y => (x, y)
  | .curveTo _ _ x y => (x, y)

/-- The last data pair of a segment (`data[(this.dataEnd >> 2) - 2]` and the
following word). -/
def lastPair (cmds : List SegCmd) : Int × Int :=
  match cmds.getLast? with
  | some c => c.endPair
  | none => (0, 0)

/-- `storeStartAndEnd`: the packed keys of the two end pairs, swapped for a
reversed segment. -/
def storeStartAndEnd (s : PSeg) : Nat × Nat :=
  let k1 := pointKey (firstPair s.cmds)
  let k2 := pointKey (lastPair s.cmds)
  if !s.isReversed then (k1, k2) else (k2, k1)

/-- A segment during `SegmentedPath.serialize`: the `PathSegment` object with
its `startPoint`/`endPoint` keys, `flag`, and `prev`/`next` neighbour indices. -/
structure WSeg where
  seg : PSeg
  startP : Nat
  endP : Nat
  flag : Bool
  prev : Option Nat
  next : Option Nat
deriving DecidableEq, Repr

/-- `flipDirection()`: swap the two keys and toggle `isReversed`. -/
def flipAt (segs : List WSeg) (i : Nat) : List WSeg :=
  listModify
    (fun (w : WSeg) => { w with startP := w.endP, endP := w.startP,
                                seg := { w.seg with isReversed := !w.seg.isReversed } })
    i segs

/-- `this.match` (a JS `Map` keyed by packed points; keys are unique by
construction). -/
def mapGet (m : List (Nat × Nat)) (k : Nat) : Option Nat :=
  (m.find? (fun e => e.1 == k)).map (fun e => e.2)

def mapSet (m : List (Nat × Nat)) (k v : Nat) : List (Nat × Nat) := m ++ [(k, v)]

def mapDelete (m : List (Nat × Nat)) (k : Nat) : List (Nat × Nat) :=
  m.filter (fun e => e.1 ≠ k)

/-- `if (p.prev) { p.next = segment } else { p.prev = segment }`. -/
def linkFirstFree (segs : List WSeg) (p i : Nat) : List WSeg :=
  listModify
    (fun (w : WSeg) => if w.prev.isSome then { w with next := some i } else { w with prev := some i })
    p segs

/-- `SegmentedPath.checkSegment(segment)` for the segment at index `i`. -/
def checkSegment (st : List WSeg × List (Nat × Nat)) (i : Nat) :
    List WSeg × List (Nat × Nat) :=
  let (segs, m) := st
  match segs.get? i with
  | none => st
  | some w0 =>
    let se := storeStartAndEnd w0.seg
    let segs := listModify
      (fun (w : WSeg) => { w with startP := se.1, endP := se.2, prev := none, next := none, flag := true })
      i segs
    let (segs, m) :=
      match mapGet m se.1 with
      | some p =>
        let segs := listModify (fun (w : WSeg) => { w with prev := some p }) i segs
        let segs := linkFirstFree segs p i
        (segs, mapDelete m se.1)
      | none => (segs, mapSet m se.1 i)
    let (segs, m) :=
      match mapGet m se.2 with
      | some p =>
        let segs := listModify (fun (w : WSeg) => { w with next := some p }) i segs
        let segs := linkFirstFree segs p i
        (segs, mapDelete m se.2)
      | none => (segs, mapSet m se.2 i)
    (segs, m)

def initWSegs (items : List PSeg) : List WSeg :=
  items.map (fun s => ⟨s, 0, 0, false, none, none⟩)

/-- The first pass of `SegmentedPath.serialize`: `checkSegment` on every
segment, from the last index down to 0. -/
def checkPass (items : List PSeg) : List WSeg :=
  ((List.range items.length).reverse.foldl checkSegment (initWSegs items, [])).1

/-- Total indexed access (out-of-range accesses do not occur in the passes
below; the default is a dead value). -/
def wseg (segs : List WSeg) (i : Nat) : WSeg :=
  (segs.get? i).getD ⟨⟨[], false⟩, 0, 0, false, none, none⟩

/-- `o && (o.startPoint === pt || o.endPoint === pt)`. -/
def optMatches (segs : List WSeg) (po : Option Nat) (pt : Nat) : Bool :=
  match po with
  | none => false
  | some p => (wseg segs p).startP == pt || (wseg segs p).endP == pt

/-- The `matchEnd` computation (−1: `prev` touches my endpoint, 1: `next`
touches my endpoint, the second test overriding the first). -/
def calcMatchEnd (segs : List WSeg) (i : Nat) : Int :=
  let w := wseg segs i
  let m : Int := if optMatches segs w.prev w.endP then -1 else 0
  if optMatches segs w.next w.endP then 1 else m

/-- `current.next === prev ? current.prev : current.next` — follow the chain
away from where we came from. -/
def navNext (segs : List WSeg) (prevI curI : Nat) : Option Nat :=
  let w := wseg segs curI
  if w.next = some prevI then w.prev else w.next

/-- The "find the start of sequence" walk (`while (current !== seg && current)`),
with fuel; `segs.length + 1` steps always suffice for the link structures
`checkPass` builds. -/
def findStart (segs : List WSeg) (segI : Nat) : Nat → Nat → Nat → Nat
  | 0, _, curI => curI
  | fuel + 1, prevI, curI =>
    if curI = segI then curI
    else
      match navNext segs prevI curI with
      | none => curI
      | some nxt => findStart segs segI fuel curI nxt

/-- The `while (current && current.flag)` emission loop. -/
def chainLoop (segs : List WSeg) (emit : List PSeg) :
    Nat → Nat → Nat → Option Nat → List WSeg × List PSeg
  | 0, _, _, _ => (segs, emit)
  | fuel + 1, prevI, prevPoint, curO =>
    match curO with
    | none => (segs, emit)
    | some c =>
      if (wseg segs c).flag = false then (segs, emit)
      else
        let segs := listModify (fun (w : WSeg) => { w with flag := false }) c segs
        let segs := if (wseg segs c).endP = prevPoint then flipAt segs c else segs
        let emit := emit ++ [(wseg segs c).seg]
        let pPoint := (wseg segs c).endP
        let nxt := navNext segs prevI c
        chainLoop segs emit fuel c pPoint nxt

/-- One iteration of the second pass of `SegmentedPath.serialize` for index
`i`: skip unflagged segments, walk to the start of the chain, orient the
start, then emit the whole chain. -/
def serializeOne (acc : List WSeg × List PSeg) (i : Nat) : List WSeg × List PSeg :=
  let (segs, emit) := acc
  let w0 := wseg segs i
  if w0.flag = false then (segs, emit)
  else
    let me0 := calcMatchEnd segs i
    let startRes :=
      if w0.next.isSome ∧ w0.prev.isSome then
        let cur0 := if me0 = -1 then w0.prev else w0.next
        let cur0 := if optMatches segs w0.prev w0.endP then w0.next else cur0
        match cur0 with
        | none => (i, me0)
        | some c0 =>
          let fin := findStart segs i (segs.length + 1) i c0
          if fin ≠ i then (fin, calcMatchEnd segs fin) else (i, me0)
      else (i, me0)
    let segI := startRes.1
    let me := startRes.2
    let segs :=
      if me = 0 ∧ ((wseg segs segI).next.isSome ∨ (wseg segs segI).prev.isSome)
      then flipAt segs segI else segs
    let w := wseg segs segI
    let current := if optMatches segs w.prev w.endP then w.prev else w.next
    let emit := emit ++ [w.seg]
    let segs := listModify (fun (x : WSeg) => { x with flag := false }) segI segs
    chainLoop segs emit (segs.length + 1) segI w.endP current

/-- Both passes: returns the emitted segments (with the orientation they had
when serialized) in emission order. -/
def serializePass (items : List PSeg) : List PSeg :=
  ((List.range items.length).reverse.foldl serializeOne (checkPass items, [])).2

/-! ### Writing an emitted segment as commands (`PathSegment.serialize`) -/

inductive OutCmd
  | moveTo (x y : Int)
  | lineTo (x y : Int)
  | curveTo (cpx cpy x y : Int)
deriving DecidableEq, Repr

def SegCmd.toOut : SegCmd → OutCmd
  | .moveTo x y => .moveTo x y
  | .lineTo x y => .lineTo x y
  | .curveTo a b x y => .curveTo a b x y

/-- Forward serialization: skip the segment's leading `MoveTo` when it goes to
the current position; the new position is the segment's final data pair. -/
def serializeForward (cmds : List SegCmd) (lastPos : Int × Int) :
    List OutCmd × (Int × Int) :=
  let skip := firstPair cmds = lastPos
  ((if skip then cmds.drop 1 else cmds).map SegCmd.toOut, lastPair cmds)

/-- The body of `_serializeReversed`: commands `c_k … c_1`, each written with
the endpoint of the command before it (curves keep their own control pair). -/
def revPairs (cmds : List SegCmd) : List OutCmd :=
  let eps := cmds.map SegCmd.endPair
  ((cmds.drop 1).zip eps).reverse.map fun ce =>
    match ce.1 with
    | .moveTo _ _ => .moveTo ce.2.1 ce.2.2
    | .lineTo _ _ => .lineTo ce.2.1 ce.2.2
    | .curveTo a b _ _ => .curveTo a b ce.2.1 ce.2.2

/-- `_serializeReversed`: an initial `MoveTo` to the last pair unless already
there, then the reversed body; the new position is the first data pair. -/
def serializeReversed (cmds : List SegCmd) (lastPos : Int × Int) :
    List OutCmd × (Int × Int) :=
  let lp := lastPair cmds
  let head := if lp ≠ lastPos then [OutCmd.moveTo lp.1 lp.2] else []
  if cmds.length = 1 then (head, firstPair cmds)
  else (head ++ revPairs cmds, firstPair cmds)

def serializeSegOut (s : PSeg) (lastPos : Int × Int) : List OutCmd × (Int × Int) :=
  if s.isReversed then serializeReversed s.cmds lastPos
  else serializeForward s.cmds lastPos

/-- Write all emitted segments, threading `lastPosition` (initially `(0, 0)`). -/
def serializeEmitted : List PSeg → (Int × Int) → List OutCmd
  | [], _ => []
  | s :: rest, lastPos =>
    let r := serializeSegOut s lastPos
    r.1 ++ serializeEmitted rest r.2

/-! ### Style headers (`serializeStyle`, `writeLineStyle`, `writeGradient`,
`writeBitmap`) -/

inductive GradKind
  | linear
  | radial
deriving DecidableEq, Repr

inductive StyleHeader
  | beginFill (color : Option ColorV)
  | gradientHeader (isLine : Bool) (colorList ratioList : List Int)
      (kind : GradKind) (transform : Option TransformM)
      (spreadMethod interpolationMode : Option Nat) (focalPoint : Int)
  | bitmapHeader (isLine : Bool) (bitmapIndex : Option Nat)
      (transform : Option TransformM) (repeatFlag smoothFlag : Option Bool)
  | lineHeader (thickness : Int) (color : Option ColorV) (pixelHinting : Bool)
      (scaleMode : Nat) (endCapsStyle jointStyle : Option Nat)
      (miterLimit : Option ℚ)
deriving DecidableEq, Repr

/-- JS number truncation toward zero. -/
def truncQ (q : ℚ) : Int := q.num.tdiv q.den

/-- `style.focalPoint / 2 | 0` (`undefined / 2` is `NaN`, and `NaN | 0 = 0`). -/
def focalOut : Option ℚ → Int
  | none => 0
  | some q => toInt32 (truncQ (q / 2))

def writeGradient (isLine : Bool) (style : ShapeStyle) : StyleHeader :=
  let kind := if style.type = some 0x10 then GradKind.linear else GradKind.radial
  .gradientHeader isLine style.colorList style.ratioList kind style.transform
    style.spreadMethod style.interpolationMode (focalOut style.focalPoint)

def writeBitmap (isLine : Bool) (style : ShapeStyle) : StyleHeader :=
  .bitmapHeader isLine style.bitmapIndex style.transform style.repeatFlag style.smoothFlag

/-- `clamp(style.width, 0, 0xff * 20) | 0`. -/
def clampWidth (w : Int) : Int := max 0 (min w (0xff * 20))

def writeLineStyle (style : ShapeStyle) : StyleHeader :=
  let scaleMode : Nat :=
    if style.noHscale then (if style.noVscale then 0 else 2)
    else if style.noVscale then 3 else 1
  .lineHeader (clampWidth (style.width.getD 0)) style.color style.pixelHinting
    scaleMode style.endCapsStyle style.jointStyle style.miterLimit

/-- `SegmentedPath.serializeStyle` (non-morph; the release build's
`assertUnreachable` writes nothing for an invalid fill kind). -/
def serializeStyleHeaders (b : SegPath) : List StyleHeader :=
  match b.fillStyle with
  | some style =>
    (match style.type with
     | some 0 => [.beginFill style.color]
     | some t =>
       if isGradientType t then [writeGradient false style]
       else if isBitmapType t then [writeBitmap false style]
       else []
     | none => [])
  | none =>
    match b.lineStyle with
    | some style =>
      (match style.type with
       | some 0 => [writeLineStyle style]
       | some t =>
         if isGradientType t then [writeLineStyle style, writeGradient true style]
         else if isBitmapType t then [writeLineStyle style, writeBitmap true style]
         else []
       | none => [])
    | none => []

/-- A serialized path: the style commands, the drawing commands, and whether
it closes with `endFill` (as opposed to `endLine`). -/
structure OutPath where
  headers : List StyleHeader
  cmds : List OutCmd
  isFill : Bool
deriving DecidableEq, Repr

/-- `SegmentedPath.serialize(shape)`: `null` for an empty path, otherwise the
style headers followed by the reconstructed contour commands. -/
def bucketSerialize (b : SegPath) : Option OutPath :=
  if b.segs.isEmpty then none
  else
    some ⟨serializeStyleHeaders b, serializeEmitted (serializePass b.segs) (0, 0),
          b.fillStyle.isSome⟩

/-- `defineShape` for a non-morph tag: set up paths, run the record loop,
apply the final segment, serialize every bucket in `allPaths` order.  The
second component is the tag after the in-place style mutations done by
`processStyle`. -/
def defineShape (tag : ShapeTag) : Except String (List OutPath × ShapeTag) :=
  match initState tag with
  | .error e => .error e
  | .ok (st0, tag1) =>
    match runRecords st0 tag.records with
    | .error e => .error e
    | .ok (st1, records') =>
      match applySegmentToStyles st1 with
      | .error e => .error e
      | .ok st2 =>
        .ok ((finalOrder st2).filterMap
               (fun id => (st2.buckets.get? id).bind bucketSerialize),
             { tag1 with records := records' })

/-! ### Morph edge pairing (lines 216–261 of `convertRecordsToShapeData`) -/

/-- An edge record on either stream of a `DefineMorphShape`. -/
inductive MorphEdgeRec
  | straight (deltaX deltaY : Int)
  | curved (controlDeltaX controlDeltaY anchorDeltaX anchorDeltaY : Int)
deriving DecidableEq, Repr

/-- The two pens: `(x, y)` for the start stream, `(morphX, morphY)` for the
end stream. -/
structure MorphPens where
  x : Int
  y : Int
  morphX : Int
  morphY : Int
deriving DecidableEq, Repr

/-- What the paired edge writes: `morphLineTo` or `morphCurveTo` arguments. -/
inductive MorphSegCmd
  | lineTo (x y mx my : Int)
  | curveTo (cpx cpy x y mcpx mcpy mx my : Int)
deriving DecidableEq, Repr

/-- The start-stream half of the curve branch: a curved record takes its
control and anchor deltas; a straight record is promoted to a degenerate
curve with control `(x + (deltaX >> 1), y + (deltaY >> 1))`. -/
def morphCurveHalf (x y : Int) : MorphEdgeRec → Int × Int × Int × Int
  | .curved ccx ccy acx acy =>
    (toInt32 (x + ccx), toInt32 (y + ccy),
     toInt32 (toInt32 (x + ccx) + acx), toInt32 (toInt32 (y + ccy) + acy))
  | .straight dx dy =>
    (x + (toInt32 dx).fdiv 2, y + (toInt32 dy).fdiv 2, x + toInt32 dx, y + toInt32 dy)

def morphEdgeStep (p : MorphPens) (record morphRecord : MorphEdgeRec) :
    MorphSegCmd × MorphPens :=
  match record, morphRecord with
  | .straight dx dy, .straight mdx mdy =>
    let x := p.x + toInt32 dx
    let y := p.y + toInt32 dy
    let mx := p.morphX + toInt32 mdx
    let my := p.morphY + toInt32 mdy
    (.lineTo (toInt32 x) (toInt32 y) (toInt32 mx) (toInt32 my), ⟨x, y, mx, my⟩)
  | r, mr =>
    let se := morphCurveHalf p.x p.y r
    let me := morphCurveHalf p.morphX p.morphY mr
    (.curveTo (toInt32 se.1) (toInt32 se.2.1) (toInt32 se.2.2.1) (toInt32 se.2.2.2)
              (toInt32 me.1) (toInt32 me.2.1) (toInt32 me.2.2.1) (toInt32 me.2.2.2),
     ⟨se.2.2.1, se.2.2.2, me.2.2.1, me.2.2.2⟩)

end Shum

/-! ## Claims -/

/-! ### Helper lemmas (pen tracking) -/

theorem setLeftFillById_preserves (st : SimpleShape.ConvState) (i : Nat)
    (st' : SimpleShape.ConvState) (h : SimpleShape.setLeftFillById st i = .ok st') :
    st'.x = st.x ∧ st'.y = st.y := by
  unfold SimpleShape.setLeftFillById at h
  split at h
  · cases h; exact ⟨rfl, rfl⟩
  · split at h
    · simp at h
    · split at h
      · simp at h
      · cases h; exact ⟨rfl, rfl⟩

theorem setRightFillById_preserves (st : SimpleShape.ConvState) (i : Nat)
    (st' : SimpleShape.ConvState) (h : SimpleShape.setRightFillById st i = .ok st') :
    st'.x = st.x ∧ st'.y = st.y := by
  unfold SimpleShape.setRightFillById at h
  split at h
  · cases h; exact ⟨rfl, rfl⟩
  · split at h
    · simp at h
    · split at h
      · simp at h
      · cases h; exact ⟨rfl, rfl⟩

/-- The pen produced by `applyStyleChange`: the move coordinates when they are
not both zero, the old pen otherwise. -/
theorem applyStyleChange_pen (st : SimpleShape.ConvState) (r : SimpleShape.StyleChangeRecord)
    (st' : SimpleShape.ConvState) (h : SimpleShape.applyStyleChange st r = .ok st') :
    (st'.x, st'.y) =
      (if r.deltaX ≠ 0 ∨ r.deltaY ≠ 0 then (r.deltaX, r.deltaY) else (st.x, st.y)) := by
  unfold SimpleShape.applyStyleChange at h
  split at h
  · simp at h
  next st1 heq1 =>
    split at h
    · simp at h
    next st2 heq2 =>
      have p1 : st1.x = st.x ∧ st1.y = st.y := by
        cases hlf : r.leftFill with
        | none => rw [hlf] at heq1; cases heq1; exact ⟨rfl, rfl⟩
        | some id => rw [hlf] at heq1; exact setLeftFillById_preserves st id st1 heq1
      have p2 : st2.x = st1.x ∧ st2.y = st1.y := by
        cases hrf : r.rightFill with
        | none => rw [hrf] at heq2; cases heq2; exact ⟨rfl, rfl⟩
        | some id => rw [hrf] at heq2; exact setRightFillById_preserves st1 id st2 heq2
      split at h
      · cases h; rw [if_pos (by assumption)]
      · cases h
        rw [if_neg (by assumption)]
        simp only [Prod.mk.injEq]
        exact ⟨p2.1.trans p1.1, p2.2.trans p1.2⟩

theorem startSegmentAt_pen (st : Shum.EmitState) (bid : Nat) :
    (Shum.startSegmentAt st bid).x = st.x ∧ (Shum.startSegmentAt st bid).y = st.y := by
  unfold Shum.startSegmentAt
  split <;> simp [Shum.addSegmentTo, Shum.modifyBucket]

theorem stepStyleChangeTail_pen_move (st : Shum.EmitState) (r : Shum.StyleChangeRec)
    (hmv : r.hasMove = true) :
    (Shum.stepStyleChangeTail st r).x = toInt32 r.moveX ∧
    (Shum.stepStyleChangeTail st r).y = toInt32 r.moveY := by
  unfold Shum.stepStyleChangeTail
  simp only [hmv, if_true]
  split
  next bid _ =>
    refine ⟨((startSegmentAt_pen _ bid).1).trans ?_, ((startSegmentAt_pen _ bid).2).trans ?_⟩ <;> rfl
  · exact ⟨rfl, rfl⟩

/-! ### C5 — morph straight-to-curve promotion -/

/-- **C5** (confirmed).  When a start-stream straight edge is paired with an
end-stream curved edge, `convertRecordsToShapeData` promotes the straight
side to a curve whose control point is the (floor) midpoint of that side's
start and end points; and the spec's concrete scenario — pens at the origin,
start record `StraightEdge{dx=100, dy=0}`, end record
`CurvedEdge{cdx=50, cdy=50, adx=50, ady=-50}` — yields one `morphCurveTo`
with start control `(50, 0)`, start endpoint `(100, 0)`, end control
`(50, 50)` and end endpoint `(100, 0)`. -/
theorem c5_morph_straight_to_curve_promotion :
    (∀ (p : Shum.MorphPens) (dx dy ccx ccy acx acy : Int),
      Shum.morphEdgeStep p (.straight dx dy) (.curved ccx ccy acx acy) =
        (.curveTo (toInt32 (p.x + (toInt32 dx).fdiv 2)) (toInt32 (p.y + (toInt32 dy).fdiv 2))
                  (toInt32 (p.x + toInt32 dx)) (toInt32 (p.y + toInt32 dy))
                  (toInt32 (p.morphX + ccx)) (toInt32 (p.morphY + ccy))
                  (toInt32 (toInt32 (p.morphX + ccx) + acx))
                  (toInt32 (toInt32 (p.morphY + ccy) + acy)),
         ⟨p.x + toInt32 dx, p.y + toInt32 dy,
          toInt32 (toInt32 (p.morphX + ccx) + acx),
          toInt32 (toInt32 (p.morphY + ccy) + acy)⟩)) ∧
    (∀ (x d : Int), x + (toInt32 d).fdiv 2 = (x + (x + toInt32 d)).fdiv 2) ∧
    Shum.morphEdgeStep ⟨0, 0, 0, 0⟩ (.straight 100 0) (.curved 50 50 50 (-50)) =
      (.curveTo 50 0 100 0 50 50 100 0, ⟨100, 0, 100, 0⟩) := by
  refine ⟨fun p dx dy ccx ccy acx acy => by
            simp [Shum.morphEdgeStep, Shum.morphCurveHalf, toInt32_idem],
          fun x d => ?_, by decide⟩
  generalize toInt32 d = e
  rw [Int.fdiv_eq_ediv _ (by norm_num), Int.fdiv_eq_ediv _ (by norm_num)]
  omega

/-! ### C6 — miter limit -/

def c6Style : Shum.RawLineStyle :=
  { Shum.defaultRawLineStyle with miterLimitFactor := some 1 }

/-- **C6** (counterexample).  A declared `miterLimitFactor` of 1 is stored as
miter limit 2, not 3: `processStyle` computes
`(style.miterLimitFactor || 1.5) * 2` — a JS falsy-default — not
`max(miterLimitFactor, 1.5) × 2`. -/
theorem c6_counterexample :
    (Shum.processLineStyle c6Style []).map (fun r => r.1.miterLimit) = .ok (some 2) ∧
    ((2 : ℚ) ≠ max ((3 : ℚ)/2) 1 * 2) := by
  constructor
  · unfold Shum.processLineStyle c6Style Shum.defaultRawLineStyle
    norm_num [Shum.colorFalsy, Except.map]
  · norm_num

/-- **C6** (amended).  The stored miter limit is `miterLimitFactor × 2` when
the declared factor is present and nonzero, and `1.5 × 2 = 3` when it is
absent or zero; factors below 1.5 are not clamped up (a factor of 1 yields 2). -/
theorem c6_amended (style : Shum.RawLineStyle) (deps : List Int) :
    (∃ e, Shum.processLineStyle style deps = .error e) ∨
    (∃ r, Shum.processLineStyle style deps = .ok r ∧
      ((style.miterLimitFactor = none ∨ style.miterLimitFactor = some 0) →
        r.1.miterLimit = some 3) ∧
      (∀ f : ℚ, style.miterLimitFactor = some f → f ≠ 0 → r.1.miterLimit = some (f * 2))) := by
  unfold Shum.processLineStyle
  dsimp only
  split
  · split
    · exact .inl ⟨_, rfl⟩
    · refine .inr ⟨_, rfl, ?_, ?_⟩
      · rintro (hf | hf) <;> simp only [hf] <;> norm_num
      · intro f hf hnz
        simp only [hf, if_neg hnz]
  · refine .inr ⟨_, rfl, ?_, ?_⟩
    · rintro (hf | hf) <;> simp only [hf] <;> norm_num
    · intro f hf hnz
      simp only [hf, if_neg hnz]

/-! ### C10 — move-to-origin keeps the pen (shape.ts) -/

/-- **C10** (confirmed).  In `toSimpleShape`, `applyStyleChange` updates the
pen only when the record's `deltaX` or `deltaY` is nonzero, so a style-change
record whose absolute move target is `(0, 0)` keeps every prior pen position
unchanged. -/
theorem c10_move_to_origin_keeps_pen (st : SimpleShape.ConvState)
    (lf rf : Option Nat) (st' : SimpleShape.ConvState)
    (h : SimpleShape.applyStyleChange st ⟨lf, rf, 0, 0⟩ = .ok st') :
    st'.x = st.x ∧ st'.y = st.y := by
  have hp := applyStyleChange_pen st ⟨lf, rf, 0, 0⟩ st' h
  simp at hp
  exact ⟨hp.1, hp.2⟩

def c10St : SimpleShape.ConvState := ⟨[⟨[], []⟩], none, none, none, 5, 7⟩

def c10St' : SimpleShape.ConvState :=
  match SimpleShape.applyStyleChange c10St ⟨none, none, 0, 0⟩ with
  | .ok s => s
  | .error _ => c10St

theorem c10_move_to_origin_keeps_pen_witness :
    c10St'.x = c10St.x ∧ c10St'.y = c10St.y :=
  c10_move_to_origin_keeps_pen c10St none none c10St' rfl

/-! ### C2 — style-change moves are absolute -/

def c2St : SimpleShape.ConvState := ⟨[⟨[], []⟩], none, none, none, 5, 5⟩

/-- **C2** (counterexample).  In `shape.ts`'s `applyStyleChange`, a
style-change record carrying a move to `(0, 0)` does *not* set the pen to the
absolute position `(0, 0)`: with the pen at `(5, 5)` it stays `(5, 5)` — the
guard `record.deltaX !== 0 || record.deltaY !== 0` skips the assignment, so
the pen is not set "for every pen position held before the record". -/
theorem c2_counterexample :
    SimpleShape.applyStyleChange c2St ⟨none, none, 0, 0⟩ = .ok c2St ∧
    (c2St.x, c2St.y) ≠ ((0 : Int), (0 : Int)) := by
  exact ⟨rfl, by decide⟩

/-- **C2** (amended).  The move field of a style-change record is interpreted
as an absolute position, never added to the pen: the Shumway emitter sets the
pen to `(moveX | 0, moveY | 0)` for every prior pen position; `shape.ts`'s
`applyStyleChange` sets the pen to the record's absolute move coordinates
whenever they are not both zero, and leaves the pen unchanged when the move
target is the origin. -/
theorem c2_amended :
    (∀ (st : Shum.EmitState) (r : Shum.StyleChangeRec)
       (res : Shum.EmitState × Shum.StyleChangeRec),
       r.hasMove = true → Shum.stepStyleChange st r = .ok res →
       res.1.x = toInt32 r.moveX ∧ res.1.y = toInt32 r.moveY) ∧
    (∀ (st : SimpleShape.ConvState) (r : SimpleShape.StyleChangeRecord)
       (st' : SimpleShape.ConvState),
       SimpleShape.applyStyleChange st r = .ok st' →
       ((r.deltaX ≠ 0 ∨ r.deltaY ≠ 0) → st'.x = r.deltaX ∧ st'.y = r.deltaY) ∧
       (r.deltaX = 0 ∧ r.deltaY = 0 → st'.x = st.x ∧ st'.y = st.y)) := by
  constructor
  · intro st r res hmv h
    unfold Shum.stepStyleChange at h
    split at h
    · simp at h
    · split at h
      · simp at h
      next heq =>
        cases h
        exact stepStyleChangeTail_pen_move _ r hmv
  · intro st r st' h
    have hp := applyStyleChange_pen st r st' h
    constructor
    · intro hnz
      rw [if_pos hnz] at hp
      exact ⟨congrArg Prod.fst hp, congrArg Prod.snd hp⟩
    · rintro ⟨h1, h2⟩
      rw [if_neg (by simp [h1, h2])] at hp
      exact ⟨congrArg Prod.fst hp, congrArg Prod.snd hp⟩

def c2WRec : Shum.StyleChangeRec := ⟨false, [], [], false, 0, false, 0, false, 0, true, 17, 23⟩

def c2WSt : Shum.EmitState :=
  ⟨[], [], [], none, none, 0, 0, 0, none, none, 3, 4, []⟩

def c2WRes : Shum.EmitState × Shum.StyleChangeRec :=
  match Shum.stepStyleChange c2WSt c2WRec with
  | .ok r => r
  | .error _ => (c2WSt, c2WRec)

theorem c2_amended_witness :
    (c2WRes.1.x = toInt32 c2WRec.moveX ∧ c2WRes.1.y = toInt32 c2WRec.moveY) ∧
    ((c2St.x, c2St.y) = ((5 : Int), (5 : Int)) ∧
      ((5 : Int) ≠ 0 ∨ (5 : Int) ≠ 0)) ∧
    (SimpleShape.applyStyleChange c2St ⟨none, none, 5, 5⟩ = .ok { c2St with x := 5, y := 5 }) :=
  ⟨c2_amended.1 c2WSt c2WRec c2WRes rfl rfl,
   ⟨rfl, Or.inl (by decide)⟩,
   by rfl⟩

/-! ### C8 — unsupported fill kinds -/

def c8BadStyle : Shum.RawFillStyle := ⟨some 0x99, none, [], none, 0, none, none, none⟩

def c8SC : Shum.StyleChangeRec := ⟨false, [], [], false, 0, true, 1, false, 0, false, 0, 0⟩

def c8Tag : Shum.ShapeTag := ⟨[c8BadStyle], [], [.styleChange c8SC, .straightEdge 100 0]⟩

/-- **C8** (counterexample).  In the Shumway parser, a declared fill kind
`0x99` — none of Solid, the gradients, or the bitmap kinds — does *not* make
decoding raise: `processStyle`'s `default:` branch only calls
`Debug.warning` and continues, and `defineShape` returns a complete result
(whose path carries no style header at all, the release-mode
`assertUnreachable` writing nothing). -/
theorem c8_counterexample :
    Shum.defineShape c8Tag = .ok ([⟨[], [.lineTo 100 0], true⟩], c8Tag) ∧
    ∀ e, Shum.defineShape c8Tag ≠ .error e := by
  refine ⟨rfl, fun e h => ?_⟩
  rw [show Shum.defineShape c8Tag = .ok ([⟨[], [.lineTo 100 0], true⟩], c8Tag) from rfl] at h
  cases h

theorem convertFillStyle_nonsolid (f : SimpleShape.SwfFillStyle)
    (hf : ∀ c, f ≠ SimpleShape.SwfFillStyle.solid c) :
    SimpleShape.convertFillStyle f = .error "Unknown fill type" := by
  cases f
  case solid c => exact absurd rfl (hf c)
  all_goals rfl

theorem convertFillStyles_error (l : List SimpleShape.SwfFillStyle)
    (h : ∃ f ∈ l, ∀ c, f ≠ SimpleShape.SwfFillStyle.solid c) :
    ∃ e, SimpleShape.convertFillStyles l = .error e := by
  induction l with
  | nil => simp at h
  | cons a rest ih =>
    unfold SimpleShape.convertFillStyles
    rcases hc : SimpleShape.convertFillStyle a with e | s
    · exact ⟨e, rfl⟩
    · rcases h with ⟨f, hmem, hf⟩
      rcases List.mem_cons.mp hmem with rfl | hmem'
      · rw [convertFillStyle_nonsolid f hf] at hc
        cases hc
      · rcases ih ⟨f, hmem', hf⟩ with ⟨e, he⟩
        rw [he]
        exact ⟨e, rfl⟩

/-- **C8** (amended).  In `shape.ts`, any declared fill kind other than
`Solid` (in particular every kind outside the supported list) makes
`convertFillStyle` throw; the error surfaces to the caller of
`toSimpleShape` and no partial output is returned.  In the Shumway parser an
unsupported kind only logs a warning and decoding continues
(`c8_counterexample`). -/
theorem c8_amended (tag : SimpleShape.DefineShapeTag)
    (h : ∃ f ∈ tag.fillStyles, ∀ c, f ≠ SimpleShape.SwfFillStyle.solid c) :
    ∃ e, SimpleShape.toSimpleShape tag = .error e := by
  rcases convertFillStyles_error tag.fillStyles h with ⟨e, he⟩
  refine ⟨e, ?_⟩
  unfold SimpleShape.toSimpleShape SimpleShape.mkConverter SimpleShape.setNewStyles
    SimpleShape.createStyleLayer
  rw [he]

def c8WTag : SimpleShape.DefineShapeTag := ⟨[.linearGradient], [], []⟩

theorem c8_amended_witness : ∃ e, SimpleShape.toSimpleShape c8WTag = .error e :=
  c8_amended c8WTag
    ⟨SimpleShape.SwfFillStyle.linearGradient, by simp [c8WTag],
     fun c h => SimpleShape.SwfFillStyle.noConfusion h⟩

/-! ### C9 — determinism and the in-place style mutation -/

def c9Matrix : Shum.ShapeMatrix := ⟨2, 0, 0, 2, 40, 40⟩

def c9Grad : Shum.RawFillStyle :=
  ⟨some 0x10, none, [⟨11, 0⟩, ⟨22, 255⟩], some c9Matrix, 0, none, some 0, some 0⟩

def c9SC : Shum.StyleChangeRec := ⟨false, [], [], false, 0, true, 1, false, 0, false, 0, 0⟩

def c9Tag : Shum.ShapeTag := ⟨[c9Grad], [], [.styleChange c9SC, .straightEdge 100 0]⟩

/-- The `a` entry of the first gradient header's transform of the first path. -/
def c9Probe : List Shum.OutPath → Option Shum.TNum
  | p :: _ =>
    match p.headers with
    | .gradientHeader _ _ _ _ (some t) _ _ _ :: _ => some t.a
    | _ => none
  | [] => none

/-- **C9** (counterexample).  Decoding is *not* deterministic for repeated
calls on the same tag object: `processStyle` nulls `style.matrix` in place,
so the first `defineShape` call sees the gradient matrix (scaled transform
`a = 2 × 819.2`) while the second call on the same tag sees `matrix = null`
and falls back to the identity transform (`a = 1`). -/
def c9Run1 : List Shum.OutPath × Shum.ShapeTag :=
  match Shum.defineShape c9Tag with
  | .ok r => r
  | .error _ => ([], c9Tag)

def c9Run2 : List Shum.OutPath × Shum.ShapeTag :=
  match Shum.defineShape c9Run1.2 with
  | .ok r => r
  | .error _ => ([], c9Tag)

theorem c9_counterexample :
    Shum.defineShape c9Tag = .ok c9Run1 ∧
    Shum.defineShape c9Run1.2 = .ok c9Run2 ∧
    c9Run1.1 ≠ c9Run2.1 := by
  refine ⟨rfl, rfl, fun h => ?_⟩
  have h2 := congrArg c9Probe h
  rw [show c9Probe c9Run1.1 = some (.val (2 * ((4096 : ℚ)/5))) from rfl] at h2
  rw [show c9Probe c9Run2.1 = some (.val 1) from rfl] at h2
  simp only [Option.some.injEq, Shum.TNum.val.injEq] at h2
  norm_num at h2

def fillNoMatrix (f : Shum.RawFillStyle) : Prop := f.matrix = none

def lineNoNestedFill (l : Shum.RawLineStyle) : Prop :=
  ¬(Shum.colorFalsy l.color = true ∧ l.hasFill = true)

def recStylesUntouched : Shum.ShapeRec → Prop
  | .styleChange r =>
    (∀ f ∈ r.fillStyles, fillNoMatrix f) ∧ (∀ l ∈ r.lineStyles, lineNoNestedFill l)
  | _ => True

theorem processFillStyle_raw (f : Shum.RawFillStyle) (deps : List Int)
    (hm : fillNoMatrix f) : (Shum.processFillStyle f deps).2.1 = f := by
  unfold Shum.processFillStyle
  split
  · rfl
  · simp only [fillNoMatrix] at hm
    simp only [hm]

theorem processLineStyle_raw (l : Shum.RawLineStyle) (deps : List Int)
    (hg : lineNoNestedFill l) :
    ∃ out, Shum.processLineStyle l deps = .ok (out, l, deps) := by
  unfold Shum.processLineStyle
  rw [if_neg hg]
  exact ⟨_, rfl⟩

theorem createFillPathsList_raw (styles : List Shum.RawFillStyle) (deps : List Int)
    (h : ∀ f ∈ styles, fillNoMatrix f) :
    (Shum.createFillPathsList styles deps).2.1 = styles := by
  induction styles generalizing deps with
  | nil => rfl
  | cons a rest ih =>
    unfold Shum.createFillPathsList
    simp only []
    rw [processFillStyle_raw a deps (h a (by simp)),
        ih _ (fun f hf => h f (by simp [hf]))]

theorem createLinePathsList_raw (styles : List Shum.RawLineStyle) (deps : List Int)
    (h : ∀ l ∈ styles, lineNoNestedFill l) :
    ∃ paths deps', Shum.createLinePathsList styles deps = .ok (paths, styles, deps') := by
  induction styles generalizing deps with
  | nil => exact ⟨[], deps, rfl⟩
  | cons a rest ih =>
    rcases processLineStyle_raw a deps (h a (by simp)) with ⟨out, ho⟩
    rcases ih deps (fun l hl => h l (by simp [hl])) with ⟨paths, deps', hr⟩
    refine ⟨(⟨none, some out, []⟩ : Shum.SegPath) :: paths, deps', ?_⟩
    unfold Shum.createLinePathsList
    rw [ho]
    dsimp only
    rw [hr]

theorem stepStyleChange_raw (st : Shum.EmitState) (r : Shum.StyleChangeRec)
    (hr : recStylesUntouched (.styleChange r))
    (res : Shum.EmitState × Shum.StyleChangeRec)
    (h : Shum.stepStyleChange st r = .ok res) : res.2 = r := by
  unfold Shum.stepStyleChange at h
  split at h
  · simp at h
  next st1 _ =>
    split at h
    · simp at h
    next st2 r' heq =>
      cases h
      by_cases hn : r.hasNewStyles = true
      · rw [if_pos hn] at heq
        unfold Shum.applyNewStyles at heq
        rcases hr with ⟨hf, hl⟩
        dsimp only at heq
        rcases createLinePathsList_raw r.lineStyles
            (Shum.createFillPathsList r.fillStyles st1.deps).2.2 hl with ⟨paths, deps', hcl⟩
        rw [hcl] at heq
        dsimp only at heq
        simp only [Except.ok.injEq, Prod.mk.injEq] at heq
        rcases heq with ⟨_, heq2⟩
        rw [← heq2]
        dsimp only
        rw [createFillPathsList_raw r.fillStyles st1.deps hf]
      · rw [if_neg hn] at heq
        cases heq
        rfl

theorem runRecords_raw (records : List Shum.ShapeRec) (st : Shum.EmitState)
    (hr : ∀ r0 ∈ records, recStylesUntouched r0)
    (res : Shum.EmitState × List Shum.ShapeRec)
    (h : Shum.runRecords st records = .ok res) : res.2 = records := by
  induction records generalizing st res with
  | nil => cases h; rfl
  | cons r0 rest ih =>
    cases r0 with
    | styleChange r =>
      unfold Shum.runRecords at h
      split at h
      · simp at h
      next st1 r' heq =>
        split at h
        · simp at h
        next st2 rest' heq2 =>
          cases h
          have h1 := stepStyleChange_raw st r (hr _ (by simp)) (st1, r') heq
          have h2 := ih st1 (fun x hx => hr x (by simp [hx])) (st2, rest') heq2
          simp only [] at h1 h2
          rw [h1, h2]
    | straightEdge dx dy =>
      unfold Shum.runRecords at h
      split at h
      · simp at h
      next st2 rest' heq2 =>
        cases h
        have h2 := ih _ (fun x hx => hr x (by simp [hx])) (st2, rest') heq2
        simp only [] at h2
        rw [h2]
    | curvedEdge a b c d =>
      unfold Shum.runRecords at h
      split at h
      · simp at h
      next st2 rest' heq2 =>
        cases h
        have h2 := ih _ (fun x hx => hr x (by simp [hx])) (st2, rest') heq2
        simp only [] at h2
        rw [h2]

/-- **C9** (amended).  `defineShape` is a pure function of the tag *value*,
so decoding the same value twice gives structurally equal results; but the
call mutates the tag in place (`style.matrix = null`,
`style.fillStyle = null`).  For tags whose fill styles (top-level and inside
`HasNewStyles` records) carry no matrix and whose line styles do not take the
nested-fill path, the mutation is the identity: the tag returned by
`defineShape` equals the input, and a second call on it returns the same
output.  (For other tags the two calls can differ — `c9_counterexample`.) -/
theorem c9_amended (tag : Shum.ShapeTag)
    (hf : ∀ f ∈ tag.fillStyles, fillNoMatrix f)
    (hl : ∀ l ∈ tag.lineStyles, lineNoNestedFill l)
    (hr : ∀ r0 ∈ tag.records, recStylesUntouched r0)
    (out : List Shum.OutPath × Shum.ShapeTag)
    (h : Shum.defineShape tag = .ok out) :
    out.2 = tag ∧ Shum.defineShape out.2 = .ok out := by
  have key : out.2 = tag := by
    unfold Shum.defineShape at h
    split at h
    · simp at h
    next st0 tag1 heq0 =>
      split at h
      · simp at h
      next st1 records' heq1 =>
        split at h
        · simp at h
        next st2 heq2 =>
          cases h
          have hrec := runRecords_raw tag.records st0 hr (st1, records') heq1
          simp only [] at hrec
          -- initState leaves the styles unchanged
          unfold Shum.initState at heq0
          dsimp only at heq0
          rcases createLinePathsList_raw tag.lineStyles
              (Shum.createFillPathsList tag.fillStyles []).2.2 hl with ⟨paths, deps', hcl⟩
          rw [hcl] at heq0
          dsimp only at heq0
          simp only [Except.ok.injEq, Prod.mk.injEq] at heq0
          rcases heq0 with ⟨_, heq0b⟩
          rw [← heq0b]
          dsimp only
          rw [createFillPathsList_raw tag.fillStyles [] hf, hrec]
  exact ⟨key, by rw [key]; exact h⟩

def c9WTag : Shum.ShapeTag :=
  ⟨[⟨some 0, some (.packed 255), [], none, 0, none, none, none⟩], [],
   [.styleChange c9SC, .straightEdge 60 0]⟩

def c9WOut : List Shum.OutPath × Shum.ShapeTag :=
  match Shum.defineShape c9WTag with
  | .ok r => r
  | .error _ => ([], c9WTag)

theorem c9_amended_witness :
    c9WOut.2 = c9WTag ∧ Shum.defineShape c9WOut.2 = .ok c9WOut :=
  c9_amended c9WTag
    (by intro f hf; simp [c9WTag] at hf; rw [hf]; rfl)
    (by intro l hl; simp [c9WTag] at hl)
    (by intro r0 hr0; simp [c9WTag, c9SC] at hr0
        rcases hr0 with h | h <;> rw [h] <;> simp [recStylesUntouched, c9SC])
    c9WOut rfl

/-! ### C1 — both fills active: one copy per fill bucket, opposite orientation -/

theorem listModify_get? {α : Type} (f : α → α) :
    ∀ (i : Nat) (l : List α) (j : Nat),
      (listModify f i l).get? j = if j = i then (l.get? j).map f else l.get? j := by
  intro i
  induction i with
  | zero =>
    intro l j
    cases l with
    | nil => cases j <;> simp [listModify]
    | cons a rest =>
      cases j with
      | zero => simp [listModify]
      | succ j => simp [listModify]
  | succ i ih =>
    intro l j
    cases l with
    | nil => cases j <;> simp [listModify]
    | cons a rest =>
      cases j with
      | zero => simp [listModify]
      | succ j => simpa [listModify, Nat.succ_inj] using ih rest j

theorem listModify_length {α : Type} (f : α → α) :
    ∀ (i : Nat) (l : List α), (listModify f i l).length = l.length := by
  intro i
  induction i with
  | zero => intro l; cases l <;> simp [listModify]
  | succ i ih => intro l; cases l <;> simp [listModify, ih]

theorem modifyLast_getLast? {α : Type} (f : α → α) :
    ∀ (l : List α), (modifyLast f l).getLast? = (l.getLast?).map f := by
  intro l
  induction l with
  | nil => simp [modifyLast]
  | cons a rest ih =>
    cases rest with
    | nil => simp [modifyLast]
    | cons b rest2 =>
      rw [show modifyLast f (a :: b :: rest2) = a :: modifyLast f (b :: rest2) from rfl]
      cases hm : modifyLast f (b :: rest2) with
      | nil => cases rest2 <;> simp [modifyLast] at hm
      | cons c cs =>
        rw [hm] at ih
        rw [List.getLast?_cons_cons, ih, List.getLast?_cons_cons]

/-- The segments recorded so far for the fill at index `i` of the current
(last) style layer. -/
def fillSegsIn (layers : List SimpleShape.StyleLayer) (i : Nat) :
    List SimpleShape.Segment :=
  match layers.getLast? with
  | some layer =>
    match layer.fills.get? i with
    | some fs => fs.segments
    | none => []
  | none => []

/-- The update a `pushFillSegment` call applies to one `FillSegmentSet`. -/
def pushSeg (s : SimpleShape.Segment) (fs : SimpleShape.FillSegmentSet) :
    SimpleShape.FillSegmentSet :=
  { fs with segments := fs.segments ++ [s] }

theorem pushFillSegment_rightFill (st : SimpleShape.ConvState) (i : Nat)
    (s : SimpleShape.Segment) : (SimpleShape.pushFillSegment st i s).rightFill = st.rightFill := rfl

theorem pushFillSegment_lineFill (st : SimpleShape.ConvState) (i : Nat)
    (s : SimpleShape.Segment) : (SimpleShape.pushFillSegment st i s).lineFill = st.lineFill := rfl

theorem pushFillSegment_x (st : SimpleShape.ConvState) (i : Nat)
    (s : SimpleShape.Segment) : (SimpleShape.pushFillSegment st i s).x = st.x := rfl

theorem pushFillSegment_y (st : SimpleShape.ConvState) (i : Nat)
    (s : SimpleShape.Segment) : (SimpleShape.pushFillSegment st i s).y = st.y := rfl

theorem pushFillSegment_getLast? (st : SimpleShape.ConvState) (i : Nat)
    (s : SimpleShape.Segment) (L : SimpleShape.StyleLayer)
    (hL : st.layers.getLast? = some L) :
    (SimpleShape.pushFillSegment st i s).layers.getLast? =
      some { L with fills := listModify (pushSeg s) i L.fills } := by
  unfold SimpleShape.pushFillSegment
  dsimp only
  rw [modifyLast_getLast?, hL]
  rfl

theorem pushFillSegment_same (st : SimpleShape.ConvState) (i : Nat) (s : SimpleShape.Segment)
    (L : SimpleShape.StyleLayer) (hL : st.layers.getLast? = some L)
    (hi : i < L.fills.length) :
    fillSegsIn (SimpleShape.pushFillSegment st i s).layers i =
      fillSegsIn st.layers i ++ [s] := by
  unfold fillSegsIn
  rw [pushFillSegment_getLast? st i s L hL, hL]
  dsimp only
  rw [listModify_get?, if_pos rfl, List.get?_eq_get hi]
  simp [pushSeg]

theorem pushFillSegment_other (st : SimpleShape.ConvState) (i j : Nat) (s : SimpleShape.Segment)
    (hij : j ≠ i) :
    fillSegsIn (SimpleShape.pushFillSegment st i s).layers j = fillSegsIn st.layers j := by
  unfold fillSegsIn
  cases hL : st.layers.getLast? with
  | none =>
    unfold SimpleShape.pushFillSegment
    dsimp only
    rw [modifyLast_getLast?, hL]
    rfl
  | some L =>
    rw [pushFillSegment_getLast? st i s L hL]
    dsimp only
    rw [listModify_get?, if_neg hij]

theorem pushLineSegment_fillSegs (st : SimpleShape.ConvState) (i j : Nat)
    (s : SimpleShape.Segment) :
    fillSegsIn (SimpleShape.pushLineSegment st i s).layers j = fillSegsIn st.layers j := by
  unfold fillSegsIn SimpleShape.pushLineSegment
  dsimp only
  rw [modifyLast_getLast?]
  cases hL : st.layers.getLast? with
  | none => rfl
  | some L => rfl

/-- The segment list of the bucket (`SegmentedPath`) with the given id. -/
def bucketSegs (st : Shum.EmitState) (id : Nat) : List Shum.PSeg :=
  match st.buckets.get? id with
  | some b => b.segs
  | none => []

theorem addSegmentTo_same (st : Shum.EmitState) (id : Nat) (s : Shum.PSeg)
    (b : Shum.SegPath) (hb : st.buckets.get? id = some b) :
    bucketSegs (Shum.addSegmentTo st id s) id = bucketSegs st id ++ [s] := by
  unfold bucketSegs Shum.addSegmentTo Shum.modifyBucket
  dsimp only
  rw [listModify_get?, if_pos rfl, hb]
  simp

theorem addSegmentTo_other (st : Shum.EmitState) (id j : Nat) (s : Shum.PSeg)
    (hij : j ≠ id) :
    bucketSegs (Shum.addSegmentTo st id s) j = bucketSegs st j := by
  unfold bucketSegs Shum.addSegmentTo Shum.modifyBucket
  dsimp only
  rw [listModify_get?, if_neg hij]

theorem addSegmentTo_line (st : Shum.EmitState) (id : Nat) (s : Shum.PSeg) :
    (Shum.addSegmentTo st id s).line = st.line := rfl

theorem addSegmentTo_fill1 (st : Shum.EmitState) (id : Nat) (s : Shum.PSeg) :
    (Shum.addSegmentTo st id s).fill1 = st.fill1 := rfl

theorem addSegmentTo_lineIds (st : Shum.EmitState) (id : Nat) (s : Shum.PSeg) :
    (Shum.addSegmentTo st id s).lineIds = st.lineIds := rfl

/-- **C1** (confirmed).  An edge processed while both the left-fill and the
right-fill slots are active contributes its geometric segment exactly once to
each of the two fill buckets, the copies having identical geometry and
opposite orientation.  In `shape.ts` (`applyStraightEdge` / `applyCurvedEdge`)
the left-fill bucket receives the forward segment and the right-fill bucket
receives exactly `Segment.reverse` of it (traversed from its endpoint back to
its start), each exactly once.  In the Shumway parser the segment was
recorded once (forward) into the fill1 bucket it is current in, and
`applySegmentToStyles` appends exactly one clone with `isReversed = true` to
the fill0 bucket while leaving the fill1 bucket unchanged. -/
theorem c1_both_fills_opposite_copies :
    (∀ (st : SimpleShape.ConvState) (r : SimpleShape.StraightEdgeRecord)
       (l rt : Nat) (L : SimpleShape.StyleLayer),
       st.leftFill = some l → st.rightFill = some rt → l ≠ rt →
       st.layers.getLast? = some L → l < L.fills.length → rt < L.fills.length →
       fillSegsIn (SimpleShape.applyStraightEdge st r).layers l =
         fillSegsIn st.layers l ++
           [.straight st.x st.y (st.x + r.deltaX) (st.y + r.deltaY)] ∧
       fillSegsIn (SimpleShape.applyStraightEdge st r).layers rt =
         fillSegsIn st.layers rt ++
           [(SimpleShape.Segment.straight st.x st.y (st.x + r.deltaX)
              (st.y + r.deltaY)).reverse]) ∧
    (∀ (st : SimpleShape.ConvState) (r : SimpleShape.CurvedEdgeRecord)
       (l rt : Nat) (L : SimpleShape.StyleLayer),
       st.leftFill = some l → st.rightFill = some rt → l ≠ rt →
       st.layers.getLast? = some L → l < L.fills.length → rt < L.fills.length →
       fillSegsIn (SimpleShape.applyCurvedEdge st r).layers l =
         fillSegsIn st.layers l ++
           [.curved st.x st.y (st.x + r.controlX) (st.y + r.controlY)
              (st.x + r.deltaX) (st.y + r.deltaY)] ∧
       fillSegsIn (SimpleShape.applyCurvedEdge st r).layers rt =
         fillSegsIn st.layers rt ++
           [(SimpleShape.Segment.curved st.x st.y (st.x + r.controlX) (st.y + r.controlY)
               (st.x + r.deltaX) (st.y + r.deltaY)).reverse]) ∧
    (∀ (st st' : Shum.EmitState) (seg : Shum.PSeg) (bid idx id0 id1 : Nat)
       (b0 : Shum.SegPath),
       st.cur = some (bid, idx) →
       Shum.curSnapshot st = some seg →
       st.fill0 ≠ 0 → st.fill1 ≠ 0 →
       st.fillIds.get? (st.fill0 - 1) = some id0 →
       st.fillIds.get? (st.fill1 - 1) = some id1 →
       bid = id1 → id0 ≠ id1 →
       st.buckets.get? id0 = some b0 →
       (∀ lid, st.lineIds.get? (st.line - 1) = some lid → lid ≠ id0 ∧ lid ≠ id1) →
       Shum.applySegmentToStyles st = .ok st' →
       bucketSegs st' id0 = bucketSegs st id0 ++ [{ seg with isReversed := true }] ∧
       bucketSegs st' id1 = bucketSegs st id1 ∧
       (bucketSegs st id1).get? idx = some seg) := by
  refine ⟨?_, ?_, ?_⟩
  · intro st r l rt L hl hr hlr hL hll hrl
    have hL1 := pushFillSegment_getLast? st l
      (SimpleShape.Segment.straight st.x st.y (st.x + r.deltaX) (st.y + r.deltaY)) L hL
    have hrl1 : rt < (listModify (pushSeg
        (SimpleShape.Segment.straight st.x st.y (st.x + r.deltaX) (st.y + r.deltaY)))
        l L.fills).length := by
      rw [listModify_length]; exact hrl
    simp only [SimpleShape.applyStraightEdge, hl, pushFillSegment_rightFill, hr,
      pushFillSegment_lineFill, pushFillSegment_x, pushFillSegment_y]
    cases hk : st.lineFill with
    | none =>
      dsimp only
      constructor
      · rw [pushFillSegment_other _ rt l _ hlr,
            pushFillSegment_same st l _ L hL hll]
      · rw [pushFillSegment_same _ rt _ _ hL1 hrl1,
            pushFillSegment_other st l rt _ (Ne.symm hlr)]
        rfl
    | some k =>
      dsimp only
      constructor
      · rw [pushLineSegment_fillSegs, pushFillSegment_other _ rt l _ hlr,
            pushFillSegment_same st l _ L hL hll]
      · rw [pushLineSegment_fillSegs, pushFillSegment_same _ rt _ _ hL1 hrl1,
            pushFillSegment_other st l rt _ (Ne.symm hlr)]
        rfl
  · intro st r l rt L hl hr hlr hL hll hrl
    have hL1 := pushFillSegment_getLast? st l
      (SimpleShape.Segment.curved st.x st.y (st.x + r.controlX) (st.y + r.controlY)
        (st.x + r.deltaX) (st.y + r.deltaY)) L hL
    have hrl1 : rt < (listModify (pushSeg
        (SimpleShape.Segment.curved st.x st.y (st.x + r.controlX) (st.y + r.controlY)
          (st.x + r.deltaX) (st.y + r.deltaY)))
        l L.fills).length := by
      rw [listModify_length]; exact hrl
    simp only [SimpleShape.applyCurvedEdge, hl, pushFillSegment_rightFill, hr,
      pushFillSegment_lineFill, pushFillSegment_x, pushFillSegment_y]
    cases hk : st.lineFill with
    | none =>
      dsimp only
      constructor
      · rw [pushFillSegment_other _ rt l _ hlr,
            pushFillSegment_same st l _ L hL hll]
      · rw [pushFillSegment_same _ rt _ _ hL1 hrl1,
            pushFillSegment_other st l rt _ (Ne.symm hlr)]
        rfl
    | some k =>
      dsimp only
      constructor
      · rw [pushLineSegment_fillSegs, pushFillSegment_other _ rt l _ hlr,
            pushFillSegment_same st l _ L hL hll]
      · rw [pushLineSegment_fillSegs, pushFillSegment_same _ rt _ _ hL1 hrl1,
            pushFillSegment_other st l rt _ (Ne.symm hlr)]
        rfl
  · intro st st' seg bid idx id0 id1 b0 hcur hsnap h3 h4 hid0 hid1 hbid h8 hb0 h9 happly
    subst hbid
    have hsplit : ∃ b, st.buckets.get? bid = some b ∧ b.segs.get? idx = some seg := by
      have hs := hsnap
      unfold Shum.curSnapshot at hs
      rw [hcur] at hs
      dsimp only at hs
      exact Option.bind_eq_some.mp hs
    obtain ⟨b1, hb1, hseg1⟩ := hsplit
    have hgoal3 : (bucketSegs st bid).get? idx = some seg := by
      unfold bucketSegs
      rw [hb1]
      exact hseg1
    unfold Shum.applySegmentToStyles at happly
    rw [hsnap] at happly
    dsimp only at happly
    rw [if_neg (show ¬(st.fill0 ≠ 0 ∧ st.fill1 = 0 ∧ st.line = 0) from
          fun h => h4 h.2.1)] at happly
    rw [if_pos h3, hid0] at happly
    dsimp only at happly
    simp only [addSegmentTo_line, addSegmentTo_fill1, addSegmentTo_lineIds] at happly
    by_cases hline : st.line = 0
    · rw [if_neg (show ¬(st.line ≠ 0 ∧ st.fill1 ≠ 0) from fun h => h.1 hline)] at happly
      injection happly with h
      subst h
      refine ⟨addSegmentTo_same st id0 _ b0 hb0, ?_, hgoal3⟩
      exact addSegmentTo_other st id0 bid _ (fun h => h8 h.symm)
    · rw [if_pos ⟨hline, h4⟩] at happly
      cases hlid : st.lineIds.get? (st.line - 1) with
      | none =>
        rw [hlid] at happly
        exact absurd happly (by simp)
      | some lid =>
        rw [hlid] at happly
        dsimp only at happly
        injection happly with h
        subst h
        obtain ⟨hn0, hn1⟩ := h9 lid hlid
        refine ⟨?_, ?_, hgoal3⟩
        · rw [addSegmentTo_other _ lid id0 _ (Ne.symm hn0)]
          exact addSegmentTo_same st id0 _ b0 hb0
        · rw [addSegmentTo_other _ lid bid _ (Ne.symm hn1)]
          exact addSegmentTo_other st id0 bid _ (fun h => h8 h.symm)

/-- A two-fill style layer used to exercise the left/right-fill pushes. -/
def c1WL : SimpleShape.StyleLayer :=
  ⟨[⟨.solid ⟨0, 0, 0, 1⟩, []⟩, ⟨.solid ⟨0, 0, 0, 1⟩, []⟩], []⟩

/-- A converter state with both fill references active (left 0, right 1). -/
def c1WSt : SimpleShape.ConvState := ⟨[c1WL], some 0, some 1, none, 0, 0⟩

/-- A current segment sitting at index 0 of bucket 1. -/
def c1WSeg : Shum.PSeg := ⟨[.moveTo 0 0, .lineTo 5 5], false⟩

/-- A Shumway emitter state with `fill0 = 1`, `fill1 = 2`, `line = 0` whose
current segment is `c1WSeg` in bucket 1 (the fill1 bucket). -/
def c1WEmit : Shum.EmitState :=
  ⟨[⟨none, none, []⟩, ⟨none, none, [c1WSeg]⟩], [0, 1], [], none, none,
   1, 2, 0, some 1, some (1, 0), 5, 5, []⟩

/-- `applySegmentToStyles c1WEmit`: the reversed clone lands in bucket 0. -/
def c1WEmit2 : Shum.EmitState :=
  { c1WEmit with buckets :=
      [⟨none, none, [⟨[.moveTo 0 0, .lineTo 5 5], true⟩]⟩, ⟨none, none, [c1WSeg]⟩] }

/-- Closed instance of `c1_both_fills_opposite_copies` on concrete states. -/
theorem c1_both_fills_opposite_copies_witness :
    (fillSegsIn (SimpleShape.applyStraightEdge c1WSt ⟨10, 2⟩).layers 0 =
        fillSegsIn c1WSt.layers 0 ++ [.straight 0 0 10 2] ∧
     fillSegsIn (SimpleShape.applyStraightEdge c1WSt ⟨10, 2⟩).layers 1 =
        fillSegsIn c1WSt.layers 1 ++ [(SimpleShape.Segment.straight 0 0 10 2).reverse]) ∧
    (fillSegsIn (SimpleShape.applyCurvedEdge c1WSt ⟨3, 4, 10, 2⟩).layers 0 =
        fillSegsIn c1WSt.layers 0 ++ [.curved 0 0 3 4 10 2] ∧
     fillSegsIn (SimpleShape.applyCurvedEdge c1WSt ⟨3, 4, 10, 2⟩).layers 1 =
        fillSegsIn c1WSt.layers 1 ++ [(SimpleShape.Segment.curved 0 0 3 4 10 2).reverse]) ∧
    (bucketSegs c1WEmit2 0 = bucketSegs c1WEmit 0 ++ [{ c1WSeg with isReversed := true }] ∧
     bucketSegs c1WEmit2 1 = bucketSegs c1WEmit 1 ∧
     (bucketSegs c1WEmit 1).get? 0 = some c1WSeg) := by
  refine ⟨⟨?_, ?_⟩, ⟨?_, ?_⟩, ?_⟩
  · exact (c1_both_fills_opposite_copies.1 c1WSt ⟨10, 2⟩ 0 1 c1WL rfl rfl
      (by decide) rfl (by decide) (by decide)).1
  · exact (c1_both_fills_opposite_copies.1 c1WSt ⟨10, 2⟩ 0 1 c1WL rfl rfl
      (by decide) rfl (by decide) (by decide)).2
  · exact (c1_both_fills_opposite_copies.2.1 c1WSt ⟨3, 4, 10, 2⟩ 0 1 c1WL rfl rfl
      (by decide) rfl (by decide) (by decide)).1
  · exact (c1_both_fills_opposite_copies.2.1 c1WSt ⟨3, 4, 10, 2⟩ 0 1 c1WL rfl rfl
      (by decide) rfl (by decide) (by decide)).2
  · exact c1_both_fills_opposite_copies.2.2 c1WEmit c1WEmit2 c1WSeg 1 0 0 1
      ⟨none, none, []⟩ rfl rfl (by decide) (by decide) rfl rfl rfl (by decide) rfl
      (by intro lid h; exact absurd h (by simp [c1WEmit])) (by rfl)

/-! ### C7 — default-path fallback -/

theorem listModify_append_len {α : Type} (f : α → α) :
    ∀ (l : List α) (x : α), listModify f l.length (l ++ [x]) = l ++ [f x] := by
  intro l
  induction l with
  | nil => intro x; simp [listModify]
  | cons a rest ih => intro x; simp [listModify, ih]

theorem createFillPathsList_segs (styles : List Shum.RawFillStyle) :
    ∀ (deps : List Int) (b : Shum.SegPath),
      b ∈ (Shum.createFillPathsList styles deps).1 → b.segs = [] := by
  induction styles with
  | nil => intro deps b hb; simp [Shum.createFillPathsList] at hb
  | cons s rest ih =>
    intro deps b hb
    unfold Shum.createFillPathsList at hb
    dsimp only at hb
    rcases List.mem_cons.mp hb with h | h
    · rw [h]
    · exact ih _ b h

theorem createLinePathsList_segs (styles : List Shum.RawLineStyle) :
    ∀ (deps : List Int) (bs : List Shum.SegPath) (ss : List Shum.RawLineStyle)
      (ds : List Int), Shum.createLinePathsList styles deps = .ok (bs, ss, ds) →
      ∀ b ∈ bs, b.segs = [] := by
  induction styles with
  | nil =>
    intro deps bs ss ds h b hb
    unfold Shum.createLinePathsList at h
    injection h with h
    injection h with hbs h
    rw [← hbs] at hb
    simp at hb
  | cons s rest ih =>
    intro deps bs ss ds h b hb
    unfold Shum.createLinePathsList at h
    cases h1 : Shum.processLineStyle s deps with
    | error e => rw [h1] at h; cases h
    | ok triple =>
      rw [h1] at h
      dsimp only at h
      cases h2 : Shum.createLinePathsList rest triple.2.2 with
      | error e => rw [h2] at h; cases h
      | ok triple2 =>
        rw [h2] at h
        dsimp only at h
        injection h with h
        injection h with hbs h
        rw [← hbs] at hb
        rcases List.mem_cons.mp hb with h3 | h3
        · rw [h3]
        · exact ih _ _ _ _ (by rw [h2]) b h3

theorem bucketSerialize_none (b : Shum.SegPath) (h : b.segs = []) :
    Shum.bucketSerialize b = none := by
  unfold Shum.bucketSerialize
  rw [h]
  rfl

/-- The default-path style as `processStyle` produces it. -/
def c7DStyle : Shum.ShapeStyle :=
  { type := some 0, width := some 20, color := some (.rgba 0 0 0 0),
    miterLimit := some 3, pixelHinting := false, noHscale := false,
    noVscale := false, endCapsStyle := none, jointStyle := none,
    colorList := [], ratioList := [], transform := none, focalPoint := none,
    spreadMethod := none, interpolationMode := none,
    bitmapId := none, bitmapIndex := none,
    repeatFlag := none, smoothFlag := none }

theorem defaultPathStyle_eq (deps : List Int) :
    Shum.defaultPathStyle deps = c7DStyle := by
  unfold Shum.defaultPathStyle Shum.processLineStyle Shum.defaultRawLineStyle
  norm_num [Shum.colorFalsy, c7DStyle]

theorem serializePass_singleton (s : Shum.PSeg) : Shum.serializePass [s] = [s] := by
  unfold Shum.serializePass Shum.checkPass Shum.initWSegs
  simp only [List.length_cons, List.length_nil, List.range_succ, List.range_zero,
    List.nil_append, List.reverse_cons, List.reverse_nil, List.foldl_cons, List.foldl_nil,
    List.map_cons, List.map_nil]
  rcases hse : Shum.storeStartAndEnd s with ⟨k1, k2⟩
  by_cases hk : k1 = k2
  · subst hk
    simp [Shum.checkSegment, Shum.serializeOne, Shum.wseg, Shum.optMatches,
      Shum.calcMatchEnd, Shum.navNext, Shum.findStart, Shum.chainLoop, Shum.flipAt,
      Shum.mapGet, Shum.mapSet, Shum.mapDelete, Shum.linkFirstFree, listModify, hse,
      List.find?]
  · have hk' : (k1 == k2) = false := beq_eq_false_iff_ne.mpr hk
    have hk'' : (k2 == k1) = false := beq_eq_false_iff_ne.mpr (Ne.symm hk)
    simp [Shum.checkSegment, Shum.serializeOne, Shum.wseg, Shum.optMatches,
      Shum.calcMatchEnd, Shum.navNext, Shum.findStart, Shum.chainLoop, Shum.flipAt,
      Shum.mapGet, Shum.mapSet, Shum.mapDelete, Shum.linkFirstFree, listModify, hse,
      List.find?, hk, hk', hk'']

theorem c7_bucketSerialize (deps2 : List Int) (X Y : Int) :
    Shum.bucketSerialize ⟨none, some (Shum.defaultPathStyle deps2),
      [⟨[.moveTo 0 0, .lineTo X Y], false⟩]⟩ =
    some ⟨[.lineHeader 20 (some (.rgba 0 0 0 0)) false 1 none none (some 3)],
          [.lineTo X Y], false⟩ := by
  have hsp := serializePass_singleton (⟨[.moveTo 0 0, .lineTo X Y], false⟩ : Shum.PSeg)
  unfold Shum.bucketSerialize
  rw [defaultPathStyle_eq]
  dsimp only
  rw [hsp]
  have hemit : Shum.serializeEmitted [⟨[.moveTo 0 0, .lineTo X Y], false⟩] (0, 0) =
      [.lineTo X Y] := by
    unfold Shum.serializeEmitted Shum.serializeSegOut Shum.serializeForward
    dsimp only [Shum.firstPair]
    simp [Shum.serializeEmitted, Shum.SegCmd.toOut]
  rw [hemit]
  have hhead : Shum.serializeStyleHeaders ⟨none, some c7DStyle,
      [⟨[.moveTo 0 0, .lineTo X Y], false⟩]⟩ =
      [.lineHeader 20 (some (.rgba 0 0 0 0)) false 1 none none (some 3)] := by
    unfold Shum.serializeStyleHeaders Shum.writeLineStyle
    dsimp only [c7DStyle]
    norm_num [Shum.clampWidth]
  rw [hhead]
  simp

theorem c7_filter (F R : List Shum.SegPath) (bkt : Shum.SegPath) (p : Shum.OutPath)
    (hF : ∀ b ∈ F, b.segs = []) (hR : ∀ b ∈ R, b.segs = [])
    (hb : Shum.bucketSerialize bkt = some p) :
    List.filterMap (fun id => (F ++ (R ++ [bkt]))[id]?.bind Shum.bucketSerialize)
      (List.range F.length ++ List.range' F.length R.length ++ [F.length + R.length]) =
      [p] := by
  rw [List.filterMap_append, List.filterMap_append]
  have h1 : List.filterMap (fun id => (F ++ (R ++ [bkt]))[id]?.bind Shum.bucketSerialize)
      (List.range F.length) = [] := by
    apply List.filterMap_eq_nil_iff.mpr
    intro id hid
    have hlt : id < F.length := List.mem_range.mp hid
    rw [List.getElem?_append_left hlt]
    cases hFb : F[id]? with
    | none => rfl
    | some b =>
      simp only [Option.some_bind]
      exact bucketSerialize_none b (hF b (List.getElem?_mem hFb))
  have h2 : List.filterMap (fun id => (F ++ (R ++ [bkt]))[id]?.bind Shum.bucketSerialize)
      (List.range' F.length R.length) = [] := by
    apply List.filterMap_eq_nil_iff.mpr
    intro id hid
    obtain ⟨hge, hlt⟩ := List.mem_range'_1.mp hid
    rw [List.getElem?_append_right hge]
    rw [List.getElem?_append_left (by omega)]
    cases hRb : R[id - F.length]? with
    | none => rfl
    | some b =>
      simp only [Option.some_bind]
      exact bucketSerialize_none b (hR b (List.getElem?_mem hRb))
  have h3 : (F ++ (R ++ [bkt]))[F.length + R.length]? = some bkt := by
    rw [← List.append_assoc]
    rw [show F.length + R.length = (F ++ R).length from (List.length_append _ _).symm]
    exact List.getElem?_concat_length _ _
  rw [h1, h2]
  simp [List.filterMap_cons, h3, hb]

/-- **C7** (confirmed).  Decoding a shape whose record stream is a single
`StraightEdge` — the three active style slots still zero — produces exactly
one `Path`: the lazily created default path, a line of width 20 twips with
the fully transparent color `(0,0,0,0)` (stored miter limit 3, scale mode
normal), whose drawing commands are a single `LineTo` (the segment's leading
`MoveTo (0,0)` is skipped because it targets the current position).  This
holds for arbitrary declared style tables, whose buckets stay empty and
serialize to nothing. -/
theorem c7_default_path_single_lineTo (fills : List Shum.RawFillStyle)
    (lines : List Shum.RawLineStyle) (dx dy : Int)
    (out : List Shum.OutPath × Shum.ShapeTag)
    (h : Shum.defineShape ⟨fills, lines, [.straightEdge dx dy]⟩ = .ok out) :
    out.1 = [⟨[.lineHeader 20 (some (.rgba 0 0 0 0)) false 1 none none (some 3)],
              [.lineTo (toInt32 dx) (toInt32 dy)], false⟩] := by
  have h0 : toInt32 0 = 0 := by norm_num [toInt32]
  simp only [Shum.defineShape, Shum.initState] at h
  cases hCL : Shum.createLinePathsList lines (Shum.createFillPathsList fills []).2.2 with
  | error e => rw [hCL] at h; cases h
  | ok tri =>
    obtain ⟨lineBuckets, lineStyles', deps2⟩ := tri
    rw [hCL] at h
    simp only [Shum.runRecords] at h
    simp only [Shum.stepStraightEdge, Shum.ensureSegment, Shum.startSegmentAt,
      Shum.addSegmentTo, Shum.modifyBucket, Shum.appendToCur, Shum.applySegmentToStyles,
      Shum.curSnapshot, listModify_append_len, List.get?_concat_length, listModify,
      toInt32_idem, zero_add, h0] at h
    simp at h
    subst h
    dsimp only
    simp only [Shum.finalOrder, Option.getD_none, List.nil_append]
    exact c7_filter (Shum.createFillPathsList fills []).1 lineBuckets _ _
      (fun b hb => createFillPathsList_segs fills [] b hb)
      (fun b hb => createLinePathsList_segs lines _ _ _ _ hCL b hb)
      (c7_bucketSerialize deps2 (toInt32 dx) (toInt32 dy))

def c7WTag : Shum.ShapeTag := ⟨[], [], [.straightEdge 100 0]⟩

/-- The decode result for `c7WTag` (total extraction of the `.ok` payload). -/
def c7WOut : List Shum.OutPath × Shum.ShapeTag :=
  match Shum.defineShape c7WTag with
  | .ok o => o
  | .error _ => ([], c7WTag)

theorem c7_default_path_single_lineTo_witness :
    c7WOut.1 = [⟨[.lineHeader 20 (some (.rgba 0 0 0 0)) false 1 none none (some 3)],
                 [.lineTo (toInt32 100) (toInt32 0)], false⟩] :=
  c7_default_path_single_lineTo [] [] 100 0 c7WOut rfl

/-! ### C3 — path emission order -/

/-- A solid raw fill style. -/
def c3Fill : Shum.RawFillStyle := ⟨some 0, some (.packed 0xFF0000), [], none, 0, none, none, none⟩

/-- A style-change record that introduces a new style table and selects
fill 1. -/
def c3SC : Shum.StyleChangeRec := ⟨true, [c3Fill], [], false, 0, true, 1, false, 0, false, 0, 0⟩

/-- An edge on the default path, then new styles, then an edge on fill 1. -/
def c3Tag : Shum.ShapeTag := ⟨[], [], [.straightEdge 100 0, .styleChange c3SC, .straightEdge 0 100]⟩

/-- The decoded paths of `c3Tag` (total extraction of the `.ok` payload). -/
def c3Out : List Shum.OutPath × Shum.ShapeTag :=
  match Shum.defineShape c3Tag with
  | .ok o => o
  | .error _ => ([], c3Tag)

/-- **C3** (counterexample).  For `c3Tag` the nonempty default path (the line
path with the single `LineTo`) is the *first* of the two output paths — the
`HasNewStyles` flush appends a pending default path when its layer closes, so
the fill path of the second layer comes after it and the default path is not
the very last path of the shape. -/
theorem c3_counterexample :
    c3Out.1.map (fun p => (p.isFill, p.cmds)) =
      [(false, [.lineTo 100 0]), (true, [.moveTo 100 0, .lineTo 100 100])] ∧
    c3Out.1.getLast?.map (fun p => p.isFill) = some true := ⟨rfl, rfl⟩

theorem addSegmentTo_allIds (st : Shum.EmitState) (id : Nat) (s : Shum.PSeg) :
    (Shum.addSegmentTo st id s).allIds = st.allIds := rfl

theorem startSegmentAt_allIds (st : Shum.EmitState) (bid : Nat) :
    (Shum.startSegmentAt st bid).allIds = st.allIds := rfl

theorem appendToCur_allIds (st : Shum.EmitState) (c : Shum.SegCmd) :
    (Shum.appendToCur st c).allIds = st.allIds := by
  unfold Shum.appendToCur
  cases st.cur with
  | none => rfl
  | some p => rfl

theorem markCurReversed_allIds (st : Shum.EmitState) :
    (Shum.markCurReversed st).allIds = st.allIds := by
  unfold Shum.markCurReversed
  cases st.cur with
  | none => rfl
  | some p => rfl

theorem ensureSegment_allIds (st : Shum.EmitState) :
    (Shum.ensureSegment st).allIds = st.allIds := by
  unfold Shum.ensureSegment
  cases st.cur with
  | some p => rfl
  | none =>
    cases st.defaultId with
    | some d => exact startSegmentAt_allIds _ _
    | none => exact startSegmentAt_allIds _ _

theorem stepStraightEdge_allIds (st : Shum.EmitState) (dx dy : Int) :
    (Shum.stepStraightEdge st dx dy).allIds = st.allIds := by
  unfold Shum.stepStraightEdge
  dsimp only
  rw [appendToCur_allIds, ensureSegment_allIds]

theorem stepCurvedEdge_allIds (st : Shum.EmitState) (a b c d : Int) :
    (Shum.stepCurvedEdge st a b c d).allIds = st.allIds := by
  unfold Shum.stepCurvedEdge
  dsimp only
  rw [appendToCur_allIds, ensureSegment_allIds]

theorem applySegmentToStyles_allIds (st st' : Shum.EmitState)
    (h : Shum.applySegmentToStyles st = .ok st') : st'.allIds = st.allIds := by
  unfold Shum.applySegmentToStyles at h
  split at h
  · cases h; rfl
  · split at h
    · cases h; exact markCurReversed_allIds st
    · split at h
      · simp at h
      next st2 heq =>
        have h2 : st2.allIds = st.allIds := by
          split at heq
          · split at heq
            · cases heq; rfl
            · simp at heq
          · cases heq; rfl
        split at h
        · split at h
          · cases h; rw [addSegmentTo_allIds]; exact h2
          · simp at h
        · cases h; exact h2

theorem stepStyleChangeTail_allIds (st : Shum.EmitState) (r : Shum.StyleChangeRec) :
    (Shum.stepStyleChangeTail st r).allIds = st.allIds := by
  unfold Shum.stepStyleChangeTail
  dsimp only
  cases hr0 : r.hasFillStyle0 <;> cases hr1 : r.hasFillStyle1 <;>
    cases hrl : r.hasLineStyle <;> cases hm : r.hasMove <;>
      simp only [hr0, hr1, hrl, hm, Bool.false_eq_true, if_true, if_false] <;>
      (split <;> (try rw [startSegmentAt_allIds]) <;> rfl)

theorem stepStyleChange_allIds (st : Shum.EmitState) (r : Shum.StyleChangeRec)
    (hn : r.hasNewStyles = false) (res : Shum.EmitState × Shum.StyleChangeRec)
    (h : Shum.stepStyleChange st r = .ok res) : res.1.allIds = st.allIds := by
  unfold Shum.stepStyleChange at h
  split at h
  · simp at h
  next st1 heq1 =>
    rw [if_neg (by rw [hn]; exact Bool.false_ne_true)] at h
    dsimp only at h
    cases h
    dsimp only
    rw [stepStyleChangeTail_allIds]
    exact applySegmentToStyles_allIds st st1 heq1

/-- Whether a record is free of the `HasNewStyles` flag. -/
def noNewStyles : Shum.ShapeRec → Prop
  | .styleChange r => r.hasNewStyles = false
  | _ => True

theorem runRecords_allIds (records : List Shum.ShapeRec) (st : Shum.EmitState)
    (hr : ∀ r0 ∈ records, noNewStyles r0)
    (res : Shum.EmitState × List Shum.ShapeRec)
    (h : Shum.runRecords st records = .ok res) : res.1.allIds = st.allIds := by
  induction records generalizing st res with
  | nil => cases h; rfl
  | cons r0 rest ih =>
    cases r0 with
    | styleChange r =>
      unfold Shum.runRecords at h
      split at h
      · simp at h
      next st1 r' heq =>
        split at h
        · simp at h
        next st2 rest' heq2 =>
          cases h
          have hnn : noNewStyles (Shum.ShapeRec.styleChange r) := hr _ (by simp)
          have h1 := stepStyleChange_allIds st r hnn (st1, r') heq
          have h2 := ih st1 (fun x hx => hr x (by simp [hx])) (st2, rest') heq2
          dsimp only at h1 h2 ⊢
          rw [h2, h1]
    | straightEdge dx dy =>
      unfold Shum.runRecords at h
      split at h
      · simp at h
      next st2 rest' heq2 =>
        cases h
        have h2 := ih _ (fun x hx => hr x (by simp [hx])) (st2, rest') heq2
        dsimp only at h2 ⊢
        rw [h2, stepStraightEdge_allIds]
    | curvedEdge a b c d =>
      unfold Shum.runRecords at h
      split at h
      · simp at h
      next st2 rest' heq2 =>
        cases h
        have h2 := ih _ (fun x hx => hr x (by simp [hx])) (st2, rest') heq2
        dsimp only at h2 ⊢
        rw [h2, stepCurvedEdge_allIds]

theorem initState_allIds (tag : Shum.ShapeTag) (st0 : Shum.EmitState)
    (tag1 : Shum.ShapeTag) (h : Shum.initState tag = .ok (st0, tag1)) :
    st0.allIds = none := by
  simp only [Shum.initState] at h
  split at h
  · simp at h
  · injection h with h
    injection h with hst _
    rw [← hst]

/-- **C3** (amended).  The true emission order: an empty bucket contributes no
path; when a `HasNewStyles` style change closes a layer, `allPaths` receives
that layer's fill paths, then its line paths, then a *pending default path* —
so the default path follows its own layer, not the whole shape; and when no
record carries new styles, a pending nonempty default path is indeed the very
last path of the decoded shape. -/
theorem c3_amended :
    (∀ b : Shum.SegPath, b.segs = [] → Shum.bucketSerialize b = none) ∧
    (∀ (st : Shum.EmitState) (r : Shum.StyleChangeRec) (st' : Shum.EmitState)
       (r' : Shum.StyleChangeRec), Shum.applyNewStyles st r = .ok (st', r') →
       st'.allIds = some (st.allIds.getD [] ++ st.fillIds ++ st.lineIds ++
         (match st.defaultId with | some d => [d] | none => [])) ∧
       st'.defaultId = none) ∧
    (∀ (tag : Shum.ShapeTag) (st0 : Shum.EmitState) (tag1 : Shum.ShapeTag)
       (st1 : Shum.EmitState) (records' : List Shum.ShapeRec) (st2 : Shum.EmitState)
       (d : Nat) (p : Shum.OutPath),
       (∀ r0 ∈ tag.records, noNewStyles r0) →
       Shum.initState tag = .ok (st0, tag1) →
       Shum.runRecords st0 tag.records = .ok (st1, records') →
       Shum.applySegmentToStyles st1 = .ok st2 →
       st2.defaultId = some d →
       (st2.buckets.get? d).bind Shum.bucketSerialize = some p →
       ((Shum.finalOrder st2).filterMap
           (fun id => (st2.buckets.get? id).bind Shum.bucketSerialize)).getLast? =
         some p) := by
  refine ⟨bucketSerialize_none, ?_, ?_⟩
  · intro st r st' r' h
    simp only [Shum.applyNewStyles] at h
    split at h
    · simp at h
    · injection h with h
      injection h with hst _
      rw [← hst]
      exact ⟨rfl, rfl⟩
  · intro tag st0 tag1 st1 records' st2 d p hno hinit hrun happ hdef hser
    have h0 : st0.allIds = none := initState_allIds tag st0 tag1 hinit
    have h1 : st1.allIds = none := by
      have := runRecords_allIds tag.records st0 hno (st1, records') hrun
      dsimp only at this
      rw [this, h0]
    have h2 : st2.allIds = none := by
      rw [applySegmentToStyles_allIds st1 st2 happ, h1]
    unfold Shum.finalOrder
    rw [h2, hdef]
    dsimp only [Option.getD]
    rw [List.nil_append, List.filterMap_append]
    have hser2 : st2.buckets[d]?.bind (fun a => Shum.bucketSerialize a) = some p := by
      simpa using hser
    have hd : List.filterMap (fun id => (st2.buckets.get? id).bind Shum.bucketSerialize)
        [d] = [p] := by
      simp [List.filterMap_cons, hser2]
    rw [hd, List.getLast?_concat]

/-- A state with one closed id, one fill id, one line id and a pending
default path. -/
def c3WSt : Shum.EmitState :=
  ⟨[], [1], [2], some [0], some 3, 0, 0, 0, none, none, 0, 0, []⟩

def c3WR : Shum.StyleChangeRec := ⟨true, [], [], false, 0, false, 0, false, 0, false, 0, 0⟩

/-- The state after the `HasNewStyles` flush of `c3WSt`. -/
def c3WFlush : Shum.EmitState × Shum.StyleChangeRec :=
  match Shum.applyNewStyles c3WSt c3WR with
  | .ok o => o
  | .error _ => (c3WSt, c3WR)

def c3WTag : Shum.ShapeTag := ⟨[], [], [.straightEdge 7 9]⟩

def c3WInit : Shum.EmitState × Shum.ShapeTag :=
  match Shum.initState c3WTag with
  | .ok o => o
  | .error _ => (c3WSt, c3WTag)

def c3WRun : Shum.EmitState × List Shum.ShapeRec :=
  match Shum.runRecords c3WInit.1 c3WTag.records with
  | .ok o => o
  | .error _ => (c3WSt, [])

def c3WSt2 : Shum.EmitState :=
  match Shum.applySegmentToStyles c3WRun.1 with
  | .ok o => o
  | .error _ => c3WSt

def c3WP : Shum.OutPath :=
  ((c3WSt2.buckets.get? 0).bind Shum.bucketSerialize).getD ⟨[], [], false⟩

/-- Closed instance of `c3_amended` on concrete states. -/
theorem c3_amended_witness :
    Shum.bucketSerialize ⟨none, none, []⟩ = none ∧
    (c3WFlush.1.allIds = some [0, 1, 2, 3] ∧ c3WFlush.1.defaultId = none) ∧
    ((Shum.finalOrder c3WSt2).filterMap
        (fun id => (c3WSt2.buckets.get? id).bind Shum.bucketSerialize)).getLast? =
      some c3WP := by
  refine ⟨c3_amended.1 ⟨none, none, []⟩ rfl, ?_, ?_⟩
  · obtain ⟨ha, hb⟩ := c3_amended.2.1 c3WSt c3WR c3WFlush.1 c3WFlush.2 rfl
    exact ⟨by simpa using ha, hb⟩
  · exact c3_amended.2.2 c3WTag c3WInit.1 c3WInit.2 c3WRun.1 c3WRun.2 c3WSt2 0 c3WP
      (by intro r0 hr0; rcases List.mem_singleton.mp hr0 with h; rw [h]; trivial)
      rfl rfl rfl rfl rfl
